import Mathlib

/-
Verification of the faker-service job execution engine.

This file gives a shallow embedding, in Lean 4, of the parts of the
repository that the checked claims are about:

  * `src/services/schemaService.js`   — prepareSchema / removeIdRecursive /
    validateSchema and the schema cache key (namespace `SchemaService`);
  * `src/workers/generator.worker.js` — the worker-side prepareSchema with
    enforceAdditionalProperties, cleanExtraProperties and the worker cache
    (namespace `GeneratorWorker`);
  * `src/workers/pool.js`             — GeneratorPool.generate: the fan-out
    chunking arithmetic and the stats/counter updates (namespace
    `GeneratorPool`);
  * `src/routes/stream.js`            — the /generate-stream writer loop
    (namespace `StreamRoute`);
  * `src/routes/generate.js`          — the dispatch decision (namespace
    `GenerateRoute`), with `generatorService.shouldUseWorkers` and the
    config constants of `src/config/index.js` and `src/config/cache.js`;
  * `src/services/jobService.js`      — the job registry state machine
    (namespace `JobService`).

JSON values are modelled by the inductive type `Json`; JavaScript objects
are association lists in insertion order (parsed JSON has unique keys),
JavaScript `Map`s are association lists as well, and `Map.set` /
assignment overwrite an existing binding in place or append a fresh one at
the end, exactly as in V8.  JSON numbers are modelled by integers — no
claim depends on non-integral numbers.  In-place mutation in the source is
translated to pure functions returning the updated value; `JSON.parse
(JSON.stringify (x))` deep cloning is therefore the identity here.
Asynchronous execution (awaiting pool tasks, AbortController signals,
wall-clock durations) is modelled by passing the externally determined
outcome — which tasks resolved, where the abort flag was observed set, how
much time elapsed — as explicit parameters.
-/

inductive Json where
  | null
  | bool (b : Bool)
  | num (n : Int)
  | str (s : String)
  | arr (elems : List Json)
  | obj (entries : List (String × Json))

/-- JavaScript truthiness of a JSON value: `null`, `false`, `0` and the
empty string are falsy; arrays and objects (even empty) are truthy. -/
def truthy : Json → Bool
  | .null => false
  | .bool b => b
  | .num n => n != 0
  | .str s => s != ""
  | .arr _ => true
  | .obj _ => true

/-- `typeof x === 'object'` together with truthiness excludes `null`;
guards of the form `!x || typeof x !== 'object'` in the source fail
exactly on arrays and objects, which this predicate captures. -/
def isObjLike : Json → Bool
  | .arr _ => true
  | .obj _ => true
  | _ => false

/-- Lookup in an association list (JavaScript object member access /
`Map.get`); finds the first binding, and parsed-JSON objects and `Map`s
have unique keys. -/
def assocGet [DecidableEq κ] : List (κ × α) → κ → Option α
  | [], _ => none
  | (k, v) :: t, q => if k = q then some v else assocGet t q

/-- Overwrite-or-append (JavaScript property assignment / `Map.set`):
an existing binding is replaced in place, a new key is appended at the
end of the insertion order. -/
def assocSet [DecidableEq κ] : List (κ × α) → κ → α → List (κ × α)
  | [], q, w => [(q, w)]
  | (k, v) :: t, q, w => if k = q then (q, w) :: t else (k, v) :: assocSet t q w

/-- Key deletion (JavaScript `delete` / `Map.delete`). -/
def assocDel [DecidableEq κ] (l : List (κ × α)) (q : κ) : List (κ × α) :=
  l.filter (fun p => p.1 != q)

/-- Member access `j[k]` for a non-numeric key: only objects yield a
value (`schema.type`, `schema.items`, … on an array or primitive are
`undefined`, modelled as `none`). -/
def jget (j : Json) (k : String) : Option Json :=
  match j with
  | .obj l => assocGet l k
  | _ => none

/-- Truthiness of a possibly-undefined value (`undefined` is falsy). -/
def truthyOpt : Option Json → Bool
  | some v => truthy v
  | none => false

/-- `Object.keys`: own enumerable keys — an object's keys in insertion
order, an array's or string's indices as decimal strings, nothing for
primitives. -/
def jsObjectKeys : Json → List String
  | .obj l => l.map (fun p => p.1)
  | .arr l => (List.range l.length).map (fun i => toString i)
  | .str s => (List.range s.length).map (fun i => toString i)
  | _ => []

/-- Member access `j[k]` for keys produced by `Object.keys j`: object
member, array element at the decimal index, or one-character string for
string indexing. -/
def jsIndex (j : Json) (k : String) : Option Json :=
  match j with
  | .obj l => assocGet l k
  | .arr l => match k.toNat? with
    | some i => l.get? i
    | none => none
  | .str s => match k.toNat? with
    | some i => (s.toList.get? i).map (fun c => Json.str (String.mk [c]))
    | none => none
  | _ => none

/-- `(Array.isArray(t) ? t : [t]).includes('object')` applied to a
possibly-undefined `type` field; `includes` uses `===`, so only the
string `"object"` matches. -/
def typeHasObject (tOpt : Option Json) : Bool :=
  match tOpt with
  | some (.arr ts) => ts.any (fun t => match t with | .str s => s == "object" | _ => false)
  | some (.str s) => s == "object"
  | some _ => false
  | none => false

mutual

/-- Deterministic serialization modelling `JSON.stringify` (no spaces,
insertion order).  String escaping is omitted: no claim depends on the
serialization of exotic characters, only on what the cache keys are
built from. -/
def jsonStringify : Json → String
  | .null => "null"
  | .bool true => "true"
  | .bool false => "false"
  | .num n => toString n
  | .str s => "\"" ++ s ++ "\""
  | .arr l => "[" ++ jsonStringifySeq l ++ "]"
  | .obj l => "\x7b" ++ jsonStringifyFields l ++ "\x7d"

/-- Comma-separated serialization of array elements. -/
def jsonStringifySeq : List Json → String
  | [] => ""
  | [x] => jsonStringify x
  | x :: t => jsonStringify x ++ "," ++ jsonStringifySeq t

/-- Comma-separated serialization of object fields. -/
def jsonStringifyFields : List (String × Json) → String
  | [] => ""
  | [(k, v)] => "\"" ++ k ++ "\":" ++ jsonStringify v
  | (k, v) :: t => "\"" ++ k ++ "\":" ++ jsonStringify v ++ "," ++ jsonStringifyFields t

end

/-
`removeIdRecursive(obj)` — appears verbatim both in schemaService.js and
in generator.worker.js.  The source mutates in place:

    delete obj.$id;
    if (obj.properties) for (const key in obj.properties)
      removeIdRecursive(obj.properties[key]);
    if (obj.items) removeIdRecursive(obj.items);
    if (obj.additionalProperties && typeof obj.additionalProperties === 'object')
      removeIdRecursive(obj.additionalProperties);

The four steps touch disjoint bindings of the same object ("$id",
"properties", "items", "additionalProperties"), so the sequential
mutation equals one pass over the entries, which is how it is written
here.  `for (const key in x)` enumerates an object's keys, an array's
index keys, or a string's index keys; recursion on a primitive returns
immediately, so `removeIdChildren` leaves non-containers unchanged.
The call on a falsy `items` is skipped by the source's truthiness guard,
and the guard on `additionalProperties` also requires `typeof object`.
-/
mutual

def removeIdRecursive : Json → Json
  | .obj l => .obj (removeIdEntries l)
  | j => j

def removeIdEntries : List (String × Json) → List (String × Json)
  | [] => []
  | (k, v) :: t =>
    if k = "$id" then removeIdEntries t
    else
      (k,
        if k = "properties" then (if truthy v then removeIdChildren v else v)
        else if k = "items" then (if truthy v then removeIdRecursive v else v)
        else if k = "additionalProperties" then
          (if truthy v && isObjLike v then removeIdRecursive v else v)
        else v) :: removeIdEntries t

def removeIdChildren : Json → Json
  | .obj l => .obj (removeIdPairs l)
  | .arr l => .arr (removeIdList l)
  | j => j

def removeIdPairs : List (String × Json) → List (String × Json)
  | [] => []
  | (k, v) :: t => (k, removeIdRecursive v) :: removeIdPairs t

def removeIdList : List Json → List Json
  | [] => []
  | v :: t => removeIdRecursive v :: removeIdList t

end

namespace SchemaService

/-- Cache key used by `prepareSchema` in schemaService.js:
`const cacheKey = JSON.stringify(schema);` — the mode does not occur in
it (this prepareSchema takes no mode at all). -/
def cacheKey (schema : Json) : String := jsonStringify schema

/-- `prepareSchema(schema)` of schemaService.js: non-objects are returned
unchanged; otherwise the schema is deep-cloned and `$id` fields are
removed along the properties/items/additionalProperties spine.  The LRU
cache only memoizes this deterministic computation (a hit returns the
value previously computed for the identical serialized schema), so it is
dropped from the functional model; cloning is the identity on pure
values. -/
def prepareSchema (schema : Json) : Json :=
  if truthy schema && isObjLike schema then removeIdRecursive schema
  else schema

/-- Result shape `{ valid, errors }` of validateSchema / validateData;
errors are modelled by their message strings. -/
structure ValidationResult where
  valid : Bool
  errors : List String
deriving DecidableEq

/-- The seven allowed values of a `type` field. -/
def validTypes : List String :=
  ["object", "array", "string", "number", "integer", "boolean", "null"]

/-- `validTypes.includes(schema.type)` — `includes` compares with `===`,
so only these exact strings match; any non-string `type` value is not a
member. -/
def typeIsValid (t : Json) : Bool :=
  match t with
  | .str s => validTypes.contains s
  | _ => false

/-- `validateSchema(schema)` of schemaService.js.  The underlying
validator (`ajv.compile`, an external library) is abstracted by the
parameter `compileFails`: `compileFails schema = true` models `compile`
throwing.  Error messages are fixed representatives of the source's
template strings.  The branches are in source order: falsy schema →
"Schema is required"; non-object → "Schema must be an object"; truthy
`type` not in `validTypes` → invalid type; then compilation. -/
def validateSchema (compileFails : Json → Bool) (schema : Json) : ValidationResult :=
  if !truthy schema then ⟨false, ["Schema is required"]⟩
  else if !isObjLike schema then ⟨false, ["Schema must be an object"]⟩
  else
    match jget schema "type" with
    | some t =>
      if truthy t && !typeIsValid t then ⟨false, ["Invalid schema type"]⟩
      else if compileFails schema then ⟨false, ["schema compile error"]⟩
      else ⟨true, []⟩
    | none =>
      if compileFails schema then ⟨false, ["schema compile error"]⟩
      else ⟨true, []⟩

end SchemaService

namespace GeneratorWorker

/-
`enforceAdditionalProperties(obj, randomMode)` of generator.worker.js.
The source mutates in place, in this order at each object node:

    const types = Array.isArray(obj.type) ? obj.type : [obj.type];
    const isObjectType = types.includes('object');
    if (isObjectType && obj.properties) {
      if (randomMode) {
        if (obj.additionalProperties === undefined ||
            obj.additionalProperties === false)
          obj.additionalProperties = true;
      } else obj.additionalProperties = false;
    }
    if (obj.properties) for (const key in obj.properties) recurse(...);
    if (obj.items) recurse(obj.items);
    if (obj.additionalProperties && typeof obj.additionalProperties === 'object')
      recurse(obj.additionalProperties);

Because the set step runs first, the final recursion sees the updated
`additionalProperties`.  Whenever the set step changes the binding, the
new value is a boolean, so that recursion is skipped; when it leaves an
object value in place, the recursion processes the original value.  The
fused per-entry translation below is therefore exact: at an
`additionalProperties` entry, under `doSet` in random mode a literal
`false` becomes `true` (no recursion), any other object value is
recursed into, and anything else is kept; under `doSet` in strict mode
the value becomes `false` (no recursion); without `doSet` object values
are recursed into.  A missing binding is created by the assignment,
which appends it at the end of the insertion order.
-/
mutual

def enforceAdditionalProperties (randomMode : Bool) : Json → Json
  | .obj l =>
    let doSet := typeHasObject (assocGet l "type") && truthyOpt (assocGet l "properties")
    let entries := enforceEntries randomMode doSet l
    if doSet && (assocGet l "additionalProperties").isNone then
      .obj (entries ++ [("additionalProperties", .bool randomMode)])
    else .obj entries
  | j => j

def enforceEntries (randomMode doSet : Bool) : List (String × Json) → List (String × Json)
  | [] => []
  | (k, v) :: t =>
    (k,
      if k = "properties" then (if truthy v then enforceChildren randomMode v else v)
      else if k = "items" then
        (if truthy v then enforceAdditionalProperties randomMode v else v)
      else if k = "additionalProperties" then
        (if doSet then
          (if randomMode then
            (match v with
             | .bool false => .bool true
             | _ =>
               if truthy v && isObjLike v then
                 enforceAdditionalProperties randomMode v
               else v)
           else .bool false)
         else
          (if truthy v && isObjLike v then
            enforceAdditionalProperties randomMode v
           else v))
      else v) :: enforceEntries randomMode doSet t

def enforceChildren (randomMode : Bool) : Json → Json
  | .obj l => .obj (enforcePairs randomMode l)
  | .arr l => .arr (enforceList randomMode l)
  | j => j

def enforcePairs (randomMode : Bool) : List (String × Json) → List (String × Json)
  | [] => []
  | (k, v) :: t => (k, enforceAdditionalProperties randomMode v) :: enforcePairs randomMode t

def enforceList (randomMode : Bool) : List Json → List Json
  | [] => []
  | v :: t => enforceAdditionalProperties randomMode v :: enforceList randomMode t

end

/-- Worker-side schema cache settings (generator.worker.js):
`new LRUCache({ max: 100, ttl: 1000 * 60 * 30, updateAgeOnGet: true })`. -/
structure LruSettings where
  max : Nat
  ttl : Nat
  updateAgeOnGet : Bool
deriving DecidableEq

/-- The worker schema cache configuration. -/
def workerSchemaCacheSettings : LruSettings :=
  ⟨100, 1000 * 60 * 30, true⟩

/-- Worker cache key:
``cacheKey = `${randomMode ? 'random' : 'strict'}_${JSON.stringify(schema)}` ``. -/
def cacheKey (schema : Json) (randomMode : Bool) : String :=
  (if randomMode then "random" else "strict") ++ "_" ++ jsonStringify schema

/-- `prepareSchema(schema, randomMode)` of generator.worker.js:
non-objects pass through; otherwise deep-clone, strip `$id` recursively,
then enforce the additional-properties policy for the mode.  As for the
service-level cache, the worker LRU memoizes this deterministic
computation keyed by `cacheKey` and is dropped from the functional
model. -/
def prepareSchema (schema : Json) (randomMode : Bool) : Json :=
  if truthy schema && isObjLike schema then
    enforceAdditionalProperties randomMode (removeIdRecursive schema)
  else schema

end GeneratorWorker

/-- `sizeOf` of a value found by association-list lookup is smaller than
the list's; used for termination of `cleanExtraProperties`. -/
theorem sizeOf_lt_of_assocGet {l : List (String × Json)} {q : String} {v : Json}
    (h : assocGet l q = some v) : sizeOf v < sizeOf l := by
  induction l with
  | nil => simp [assocGet] at h
  | cons p t ih =>
    obtain ⟨k, w⟩ := p
    simp only [assocGet] at h
    split at h
    · cases h
      simp
      omega
    · have := ih h
      simp
      omega

/-- `cleanExtraProperties(data, schema)` — appears verbatim both in
generatorService.js and in generator.worker.js.  Non-objects (and runs
against falsy or non-object schemas) pass through; arrays map the
recursion over their elements when `schema.items` is truthy; an object is
rebuilt from `Object.keys(schema.properties)` keeping exactly the keys
present in the data (`key in data`), each value cleaned against its
property schema — but only when the schema's `type` mentions `object` and
`schema.properties` is truthy.  A property schema that `jsIndex` cannot
produce would be `undefined` in the source, against which the recursion
returns the data unchanged; `.getD .null` models this (a `null` schema
also short-circuits the guard). -/
def cleanExtraProperties (data schema : Json) : Json :=
  if !(truthy data && isObjLike data && truthy schema && isObjLike schema) then data
  else
    match data with
    | .arr l =>
      (match jget schema "items" with
       | some items =>
         if truthy items then
           .arr (l.attach.map (fun x => cleanExtraProperties x.1 items))
         else .arr l
       | none => .arr l)
    | .obj dl =>
      let isObjectType := typeHasObject (jget schema "type")
      (match jget schema "properties" with
       | some props =>
         if isObjectType && truthy props then
           .obj ((jsObjectKeys props).attach.filterMap (fun k =>
             match h : assocGet dl k.1 with
             | some dv =>
               some (k.1, cleanExtraProperties dv ((jsIndex props k.1).getD .null))
             | none => none))
         else .obj dl
       | none => .obj dl)
    | j => j
termination_by sizeOf data
decreasing_by
  · have := List.sizeOf_lt_of_mem x.2
    simp
    omega
  · have := sizeOf_lt_of_assocGet h
    simp
    omega

/-- Ceiling division `Math.ceil(a / b)` for positive integers. -/
def ceilDiv (a b : Nat) : Nat := (a + b - 1) / b

namespace GeneratorPool

/-- The pool's process-wide stats record (`this.stats` in pool.js). -/
structure Stats where
  totalGenerated : Nat
  totalDuration : Nat
  completedJobs : Nat
  abortedJobs : Nat
deriving DecidableEq

/-- Outcome of awaiting the Piscina run(s) inside `generate`: all tasks
resolved (with each task's `data` array), or the awaited promise rejected
with an `AbortError`, or it rejected with any other error.  The worker is
an external collaborator, so the resolved record arrays are parameters. -/
inductive RunOutcome where
  | success (results : List (List Json))
  | abortError
  | otherError

/-- What `generate` does for the caller: return the result, throw
`JobAbortedError`, or throw `GenerationError`. -/
inductive GenResult where
  | ok (data : List Json)
  | jobAborted
  | generationError

/-- Whether a `GenResult` is a normal return. -/
def GenResult.isOk : GenResult → Bool
  | .ok _ => true
  | _ => false

/-- `optimalChunkSize = 25` in pool.js. -/
def optimalChunkSize : Nat := 25

/-- `workerCount = Math.min(availableThreads * 5, Math.ceil(count / optimalChunkSize))`. -/
def workerCount (count threads : Nat) : Nat :=
  min (threads * 5) (ceilDiv count optimalChunkSize)

/-- `chunkSize = Math.ceil(count / workerCount)`. -/
def chunkSize (count threads : Nat) : Nat :=
  ceilDiv count (workerCount count threads)

/-- The chunk-building loop
`for (let i = 0; i < count; i += chunkSize) chunks.push(Math.min(chunkSize, count - i));`
written by recursion on `remaining = count - i`.  The first argument is
fuel bounding the iteration count; since every call site has
`cs ≥ 1`, each iteration consumes at least one unit of `remaining`, so
fuel `count` is never exhausted (with `cs = 0` the source loop would not
terminate at all). -/
def chunksGo (cs : Nat) : Nat → Nat → List Nat
  | 0, _ => []
  | _ + 1, 0 => []
  | fuel + 1, r + 1 => min cs (r + 1) :: chunksGo cs fuel (r + 1 - cs)

/-- The chunk list built by `generate` on the fan-out path. -/
def chunks (count threads : Nat) : List Nat :=
  chunksGo (chunkSize count threads) count count

/-- Number of pool tasks actually submitted (`chunks.map(... pool.run ...)`). -/
def numTasks (count threads : Nat) : Nat := (chunks count threads).length

/-- `GeneratorPool.generate(schema, count, options)` — the control flow
of pool.js lines 96–197 around the awaited pool runs.  The fan-out branch
(`count >= 50 && !streaming`) flattens the per-task `data` arrays in
submission order (`Promise.all` preserves positional order regardless of
completion order) and adds `allData.length` to `totalGenerated`; the
single-task branch adds the requested `count`.  Both add the elapsed time
and increment `completedJobs` once.  The `catch` increments `abortedJobs`
exactly when the error is an `AbortError`, rethrowing `JobAbortedError`;
any other error is rethrown as `GenerationError` with no counter change.
The `finally` block only drops the `activeJobs` registration, which is
not part of the stats. -/
def generate (stats : Stats) (count : Nat) (streaming : Bool) (elapsed : Nat)
    (outcome : RunOutcome) : Stats × GenResult :=
  if 50 ≤ count && !streaming then
    match outcome with
    | .success results =>
      let allData := results.flatten
      ({ stats with
          totalGenerated := stats.totalGenerated + allData.length,
          totalDuration := stats.totalDuration + elapsed,
          completedJobs := stats.completedJobs + 1 },
       .ok allData)
    | .abortError => ({ stats with abortedJobs := stats.abortedJobs + 1 }, .jobAborted)
    | .otherError => (stats, .generationError)
  else
    match outcome with
    | .success results =>
      ({ stats with
          totalGenerated := stats.totalGenerated + count,
          totalDuration := stats.totalDuration + elapsed,
          completedJobs := stats.completedJobs + 1 },
       .ok results.flatten)
    | .abortError => ({ stats with abortedJobs := stats.abortedJobs + 1 }, .jobAborted)
    | .otherError => (stats, .generationError)

end GeneratorPool

namespace StreamRoute

/-- The NDJSON records written by the /generate-stream handler.  Data
chunks carry their index, size and cumulative progress (the record
payloads themselves come from the external worker and are not part of
the sequencing claims); `abortRec` is
`{"error":"aborted","message":...,"completed":...}`; `failRec` is
`{"error":"generation_failed", ..., "completed":...}`; `doneRec` is the
final `{"done":true,"stats":{...}}` with its total-records and
chunks-streamed stats. -/
inductive StreamRecord where
  | dataChunk (chunk size completed total : Nat)
  | abortRec (message : String) (completed : Nat)
  | failRec (completed : Nat)
  | doneRec (totalRecords chunksStreamed : Nat)
deriving DecidableEq

/-- `const safeChunkSize = Math.max(500, Math.min(chunkSize, 5000));` -/
def safeChunkSize (chunkSize : Nat) : Nat := max 500 (min chunkSize 5000)

/-- The /generate-stream writer loop (stream.js lines 82–147), by
recursion on `remaining = count - i` with fuel (first numeric argument);
every call site has `cs ≥ 500`, so fuel `count` is never exhausted.
`abortAt idx` tells whether `abortController.signal.aborted` is observed
set at the top of iteration `idx` (the abort is an external event);
`failAt idx` tells whether awaiting the pool for chunk `idx` throws.
On abort the handler writes the abort record and breaks — and the code
after the loop then writes the final `done` record and ends the body.
On a generation failure the `catch` writes the failure record and ends
without a `done` record.  Otherwise a data chunk of
`thisChunkSize = min cs remaining` records is written and the loop
continues; after the loop the `done` record is written. -/
def streamGo (cs total : Nat) (abortAt failAt : Nat → Bool) :
    Nat → Nat → Nat → Nat → List StreamRecord
  | 0, _, _, _ => []
  | _ + 1, 0, chunkIdx, totalSent => [.doneRec totalSent chunkIdx]
  | fuel + 1, r + 1, chunkIdx, totalSent =>
    if abortAt chunkIdx then
      [.abortRec "Job stopped by user" totalSent, .doneRec totalSent chunkIdx]
    else if failAt chunkIdx then [.failRec totalSent]
    else
      let t := min cs (r + 1)
      .dataChunk chunkIdx t (totalSent + t) total ::
        streamGo cs total abortAt failAt fuel (r + 1 - t) (chunkIdx + 1) (totalSent + t)

/-- The whole single-schema stream body for a request of `count` records
at requested chunk size `chunkSizeRaw`, as a function of the externally
timed abort/failure events. -/
def streamHandler (count chunkSizeRaw : Nat) (abortAt failAt : Nat → Bool) :
    List StreamRecord :=
  streamGo (safeChunkSize chunkSizeRaw) count abortAt failAt count count 0 0

end StreamRoute

namespace JobService

/-- One tracked request (`this.activeRequests.set(requestId, {...})`).
The abort controller is identified by the request it belongs to; its
`abort()` side effect is recorded in the state's `signaled` list. -/
structure JobEntry where
  requestId : Nat
  jobId : Option String
  count : Nat
deriving DecidableEq

/-- The JobService state.  The source keeps one `Map` with mixed key
types — numeric request ids mapped to entries, and strings `job:<id>`
mapped to request ids; the two key types partition the map, modelled as
the two association lists `requests` and `jobAliases` (both with
`Map.set` overwrite-or-append semantics).  `signaled` records every
`abortController.abort()` call issued. -/
structure JobState where
  requests : List (Nat × JobEntry)
  jobAliases : List (String × Nat)
  requestIdCounter : Nat
  signaled : List Nat
deriving DecidableEq

/-- Truthiness of the optional external job id (absent or empty string
is falsy, so `if (jobId)` skips the alias). -/
def jobIdTruthy : Option String → Bool
  | some s => s != ""
  | none => false

/-- `registerRequest(jobId, abortController, count)`: allocates
`++this.requestIdCounter`, stores the entry, and when `jobId` is truthy
also maps `job:<jobId>` to the new request id (overwriting any previous
alias for the same job id). -/
def registerRequest (st : JobState) (jobId : Option String) (count : Nat) :
    Nat × JobState :=
  let rid := st.requestIdCounter + 1
  let st1 := { st with
    requestIdCounter := rid,
    requests := assocSet st.requests rid ⟨rid, jobId, count⟩ }
  match jobId with
  | some j =>
    if j != "" then (rid, { st1 with jobAliases := assocSet st1.jobAliases j rid })
    else (rid, st1)
  | none => (rid, st1)

/-- `unregisterRequest(requestId)`: when the entry exists, delete the
`job:<jobId>` alias outright (whichever request id it currently points
to) and then the entry itself; unknown ids are a no-op. -/
def unregisterRequest (st : JobState) (rid : Nat) : JobState :=
  match assocGet st.requests rid with
  | some e =>
    let st1 :=
      match e.jobId with
      | some j =>
        if j != "" then { st with jobAliases := assocDel st.jobAliases j } else st
      | none => st
    { st1 with requests := assocDel st1.requests rid }
  | none => st

/-- `abortByRequestId(requestId)`: if the entry exists (its abort
controller always does), signal its controller, unregister it and return
true; otherwise return false. -/
def abortByRequestId (st : JobState) (rid : Nat) : Bool × JobState :=
  match assocGet st.requests rid with
  | some _ =>
    let st1 := { st with signaled := rid :: st.signaled }
    (true, unregisterRequest st1 rid)
  | none => (false, st)

/-- `abortByJobId(jobId)`: follow the `job:<jobId>` alias (the
`if (requestId)` truthiness test rejects 0, though ids start at 1) and
abort by request id; an unknown alias returns false. -/
def abortByJobId (st : JobState) (j : String) : Bool × JobState :=
  match assocGet st.jobAliases j with
  | some rid => if rid != 0 then abortByRequestId st rid else (false, st)
  | none => (false, st)

end JobService

/-- `config.generation.workerThreshold` (config/index.js): 300. -/
def workerThreshold : Nat := 300

namespace GeneratorService

/-- `shouldUseWorkers(count)` of generatorService.js:
`count >= config.generation.workerThreshold`. -/
def shouldUseWorkers (count : Nat) : Bool := workerThreshold ≤ count

end GeneratorService

/-- Where a /generate job's generation runs. -/
inductive DispatchTarget where
  | inline
  | pool
deriving DecidableEq

namespace GenerateRoute

/-- The dispatch decision of the POST /generate handler (generate.js
lines 117–129): `generatorService.shouldUseWorkers(itemCount)` selects
the worker pool, anything else runs `generatorService.generateBatch`
inline on the caller's executor.  The handler has the request's
`streaming` flag in scope (it is forwarded inside `genOptions`), but the
decision itself never consults it. -/
def dispatch (count : Nat) (streaming : Bool) : DispatchTarget :=
  if GeneratorService.shouldUseWorkers count then .pool else .inline

/-- The dispatch policy as the claim states it (spec §4.5): pool exactly
when `count ≥ 300` or streaming was requested.  This definition follows
the claim's words, for comparison with `dispatch` above. -/
def claimedDispatch (count : Nat) (streaming : Bool) : DispatchTarget :=
  if 300 ≤ count || streaming then .pool else .inline

end GenerateRoute

namespace CacheConfig

/-- `cacheConfig.schema` of config/cache.js:
`{ max: 200, ttl: 1000 * 60 * 60, updateAgeOnGet: true }` — one hour. -/
def schema : GeneratorWorker.LruSettings := ⟨200, 1000 * 60 * 60, true⟩

/-- `cacheConfig.template` of config/cache.js. -/
def template : GeneratorWorker.LruSettings := ⟨100, 1000 * 60 * 5, false⟩

/-- `cacheConfig.validation` of config/cache.js:
`{ max: 100, ttl: 1000 * 60 * 30, updateAgeOnGet: true }`. -/
def validation : GeneratorWorker.LruSettings := ⟨100, 1000 * 60 * 30, true⟩

end CacheConfig

/-
Shared lemmas about the association-list map model.
-/

theorem assocGet_assocSet_self [DecidableEq κ] (l : List (κ × α)) (k : κ) (v : α) :
    assocGet (assocSet l k v) k = some v := by
  induction l with
  | nil => simp [assocSet, assocGet]
  | cons p t ih =>
    obtain ⟨k1, v1⟩ := p
    by_cases h : k1 = k
    · subst h
      simp [assocSet, assocGet]
    · simp [assocSet, assocGet, h, ih]

theorem assocGet_assocSet_ne [DecidableEq κ] (l : List (κ × α)) (k q : κ) (v : α)
    (h : k ≠ q) : assocGet (assocSet l k v) q = assocGet l q := by
  induction l with
  | nil => simp [assocSet, assocGet, h]
  | cons p t ih =>
    obtain ⟨k1, v1⟩ := p
    by_cases h1 : k1 = k
    · subst h1
      simp [assocSet, assocGet, h]
    · simp [assocSet, assocGet, h1, ih]

theorem assocGet_assocDel_self [DecidableEq κ] (l : List (κ × α)) (k : κ) :
    assocGet (assocDel l k) k = none := by
  induction l with
  | nil => simp [assocDel, assocGet]
  | cons p t ih =>
    obtain ⟨k1, v1⟩ := p
    by_cases h : k1 = k
    · subst h
      simpa [assocDel] using ih
    · simpa [assocDel, assocGet, h] using ih

theorem assocGet_assocDel_ne [DecidableEq κ] (l : List (κ × α)) (k q : κ)
    (h : k ≠ q) : assocGet (assocDel l k) q = assocGet l q := by
  induction l with
  | nil => simp [assocDel, assocGet]
  | cons p t ih =>
    obtain ⟨k1, v1⟩ := p
    by_cases h1 : k1 = k
    · subst h1
      have hq : k1 ≠ q := h
      simpa [assocDel, assocGet, hq] using ih
    · by_cases h2 : k1 = q
      · subst h2
        simp [assocDel, assocGet, h1]
      · simpa [assocDel, assocGet, h1, h2] using ih

theorem assocGet_append [DecidableEq κ] (a b : List (κ × α)) (k : κ) :
    assocGet (a ++ b) k = ((assocGet a k).rec (assocGet b k) (fun v => some v)) := by
  induction a with
  | nil => simp [assocGet]
  | cons p t ih =>
    obtain ⟨k1, v1⟩ := p
    by_cases h : k1 = k
    · simp [assocGet, h]
    · simpa [assocGet, h] using ih

/-
Ceiling-division lemmas.
-/

theorem ceilDiv_le_iff (n q w : Nat) (hq : 1 ≤ q) :
    ceilDiv n q ≤ w ↔ n ≤ w * q := by
  unfold ceilDiv
  rw [Nat.div_le_iff_le_mul_add_pred hq]
  have hcomm : q * w = w * q := Nat.mul_comm q w
  omega

theorem le_mul_ceilDiv (n q : Nat) (hq : 1 ≤ q) : n ≤ q * ceilDiv n q := by
  unfold ceilDiv
  have h := Nat.div_add_mod (n + q - 1) q
  have h2 := Nat.mod_lt (n + q - 1) (show 0 < q by omega)
  omega

theorem one_le_ceilDiv (n q : Nat) (hn : 1 ≤ n) (hq : 1 ≤ q) : 1 ≤ ceilDiv n q := by
  unfold ceilDiv
  rw [Nat.le_div_iff_mul_le (show 0 < q by omega)]
  omega

theorem ceilDiv_succ (r q : Nat) (hq : 1 ≤ q) (hr : q < r) :
    ceilDiv r q = ceilDiv (r - q) q + 1 := by
  unfold ceilDiv
  have : r + q - 1 = (r - q + q - 1) + q := by omega
  rw [this, Nat.add_div_right _ (show 0 < q by omega)]

theorem ceilDiv_eq_one (r q : Nat) (h1 : 1 ≤ r) (h2 : r ≤ q) : ceilDiv r q = 1 := by
  unfold ceilDiv
  apply Nat.div_eq_of_lt_le <;> omega

namespace GeneratorPool

theorem chunksGo_zero (cs fuel : Nat) : chunksGo cs fuel 0 = [] := by
  cases fuel <;> rfl

theorem chunksGo_sum (cs : Nat) (hcs : 1 ≤ cs) :
    ∀ fuel r, r ≤ fuel → (chunksGo cs fuel r).sum = r := by
  intro fuel
  induction fuel with
  | zero =>
    intro r hr
    interval_cases r
    rfl
  | succ fuel ih =>
    intro r hr
    match r with
    | 0 => rfl
    | r + 1 =>
      have h1 : r + 1 - cs ≤ fuel := by omega
      simp only [chunksGo, List.sum_cons, ih _ h1]
      omega

theorem ceilDiv_zero_left (cs : Nat) (hcs : 1 ≤ cs) : ceilDiv 0 cs = 0 := by
  unfold ceilDiv
  apply Nat.div_eq_of_lt
  omega

theorem chunksGo_length (cs : Nat) (hcs : 1 ≤ cs) :
    ∀ fuel r, r ≤ fuel → (chunksGo cs fuel r).length = ceilDiv r cs := by
  intro fuel
  induction fuel with
  | zero =>
    intro r hr
    interval_cases r
    simp [chunksGo, ceilDiv_zero_left cs hcs]
  | succ fuel ih =>
    intro r hr
    match r with
    | 0 => simp [chunksGo, ceilDiv_zero_left cs hcs]
    | r + 1 =>
      have h1 : r + 1 - cs ≤ fuel := by omega
      simp only [chunksGo, List.length_cons, ih _ h1]
      by_cases h2 : r + 1 ≤ cs
      · have h3 : r + 1 - cs = 0 := by omega
        rw [h3, ceilDiv_eq_one (r + 1) cs (by omega) h2, ceilDiv_zero_left cs hcs]
      · rw [ceilDiv_succ (r + 1) cs hcs (by omega)]

theorem chunksGo_mem (cs : Nat) (hcs : 1 ≤ cs) :
    ∀ fuel r, ∀ x ∈ chunksGo cs fuel r, 1 ≤ x ∧ x ≤ cs := by
  intro fuel
  induction fuel with
  | zero =>
    intro r x hx
    simp [chunksGo] at hx
  | succ fuel ih =>
    intro r x hx
    match r with
    | 0 => simp [chunksGo] at hx
    | r + 1 =>
      simp only [chunksGo, List.mem_cons] at hx
      rcases hx with h | h
      · subst h
        omega
      · exact ih _ _ h

theorem chunksGo_ne_nil (cs : Nat) (hcs : 1 ≤ cs) (fuel r : Nat)
    (hr : 1 ≤ r) (hfuel : r ≤ fuel) : chunksGo cs fuel r ≠ [] := by
  match fuel, r with
  | 0, r => omega
  | fuel + 1, 0 => omega
  | fuel + 1, r + 1 => simp [chunksGo]

theorem chunksGo_dropLast (cs : Nat) (hcs : 1 ≤ cs) :
    ∀ fuel r, r ≤ fuel → ∀ x ∈ (chunksGo cs fuel r).dropLast, x = cs := by
  intro fuel
  induction fuel with
  | zero =>
    intro r hr x hx
    interval_cases r
    simp [chunksGo] at hx
  | succ fuel ih =>
    intro r hr x hx
    match r with
    | 0 => simp [chunksGo] at hx
    | r + 1 =>
      by_cases h2 : r + 1 ≤ cs
      · have h3 : r + 1 - cs = 0 := by omega
        simp only [chunksGo, h3, chunksGo_zero] at hx
        simp at hx
      · have h1 : r + 1 - cs ≤ fuel := by omega
        have hne := chunksGo_ne_nil cs hcs fuel (r + 1 - cs) (by omega) h1
        simp only [chunksGo] at hx
        rw [List.dropLast_cons_of_ne_nil hne] at hx
        rcases List.mem_cons.mp hx with h | h
        · omega
        · exact ih _ h1 _ h

end GeneratorPool

/-- C4 counterexample: the claim as stated says a job with streaming
requested is dispatched to the worker pool even when `count < 300`; the
POST /generate dispatch decision at a concrete such input (count 10,
streaming true) selects inline generation while the claimed policy
selects the pool. -/
theorem C4_counterexample :
    GenerateRoute.dispatch 10 true = .inline ∧
    GenerateRoute.claimedDispatch 10 true = .pool ∧
    GenerateRoute.dispatch 10 true ≠ GenerateRoute.claimedDispatch 10 true := by
  refine ⟨rfl, rfl, ?_⟩
  decide

/-- C4 amended: the POST /generate dispatch decision depends only on the
count — the worker pool is selected exactly when `count ≥ 300`
(`generatorService.shouldUseWorkers`), and the request's streaming flag
is never consulted, so a `count < 300` job runs inline even when
streaming was requested.  (Streaming requests served by the dedicated
stream endpoints always call the pool, per chunk, by construction of
those handlers.) -/
theorem C4_amended (count : Nat) (s1 s2 : Bool) :
    GenerateRoute.dispatch count s1 = GenerateRoute.dispatch count s2 ∧
    (GenerateRoute.dispatch count s1 = .pool ↔ 300 ≤ count) := by
  unfold GenerateRoute.dispatch GeneratorService.shouldUseWorkers workerThreshold
  refine ⟨rfl, ?_⟩
  by_cases h : 300 ≤ count
  · simp [h]
  · simp [h]

/-- C9 counterexample: the claim gives the prepared-schema cache a
time-to-live of 30 minutes, but `cacheConfig.schema` (the cache behind
`schemaService.prepareSchema`, the sources the claim cites) sets
`ttl: 1000 * 60 * 60` — one hour. -/
theorem C9_counterexample :
    CacheConfig.schema.ttl = 1000 * 60 * 60 ∧
    CacheConfig.schema.ttl ≠ 1000 * 60 * 30 := by
  constructor
  · rfl
  · decide

/-- C9 amended: the service-level prepared-schema cache
(`cacheConfig.schema`) is a bounded LRU of 200 entries with a
time-to-live of 60 minutes, refreshed on read (`updateAgeOnGet`), and is
keyed by the canonical serialization of the input schema alone — the
service `prepareSchema` takes no mode, so no mode occurs in the key.
The pair-keyed 30-minute cache the claim describes exists instead inside
the worker (`workerSchemaCache` in generator.worker.js): 100 entries,
ttl 30 minutes, refreshed on read, keyed by
`(randomMode ? 'random' : 'strict') + '_' + JSON.stringify(schema)`.
(The LRU/TTL mechanics themselves live in the external `lru-cache`
library; the embedded facts are the configurations and keys the source
hands it.) -/
theorem C9_amended :
    CacheConfig.schema.max = 200 ∧
    CacheConfig.schema.ttl = 1000 * 60 * 60 ∧
    CacheConfig.schema.updateAgeOnGet = true ∧
    (∀ s : Json, SchemaService.cacheKey s = jsonStringify s) ∧
    GeneratorWorker.workerSchemaCacheSettings.max = 100 ∧
    GeneratorWorker.workerSchemaCacheSettings.ttl = 1000 * 60 * 30 ∧
    GeneratorWorker.workerSchemaCacheSettings.updateAgeOnGet = true ∧
    (∀ (s : Json) (m : Bool), GeneratorWorker.cacheKey s m =
      (if m then "random" else "strict") ++ "_" ++ jsonStringify s) := by
  exact ⟨rfl, rfl, rfl, fun _ => rfl, rfl, rfl, rfl, fun _ _ => rfl⟩

/-- C6 counterexample: the claim says the number of submitted tasks is
`min (5 * T) ⌈count / 25⌉`; at `count = 754` and `T = 6` active threads
that value is 30, but the chunk loop produces `⌈754 / 26⌉ = 29` chunks
(chunkSize 26 divides 754 exactly as 26 × 29), so only 29 tasks are
submitted. -/
theorem C6_counterexample :
    GeneratorPool.workerCount 754 6 = 30 ∧
    GeneratorPool.numTasks 754 6 = 29 ∧
    GeneratorPool.numTasks 754 6 ≠ GeneratorPool.workerCount 754 6 := by
  refine ⟨rfl, rfl, ?_⟩
  decide

/-- C6 amended: on the fan-out path (`count ≥ 50`, non-streaming, with
`T ≥ 1` active executors) the number of submitted tasks is
`⌈count / chunkSize⌉` for `chunkSize = ⌈count / min (5T) ⌈count/25⌉⌉` —
at most `min (5T) ⌈count/25⌉`, and possibly strictly smaller; every
chunk equals `chunkSize` except a possibly smaller (but nonzero) last
chunk; the chunk counts sum exactly to `count`; and the aggregated
result is the order-preserving concatenation of the per-task outputs, so
whenever each task returns exactly its chunk's records the result length
equals `count` regardless of completion order. -/
theorem C6_amended (count threads : Nat) (h50 : 50 ≤ count) (hT : 1 ≤ threads) :
    (GeneratorPool.chunks count threads).sum = count ∧
    GeneratorPool.numTasks count threads =
      ceilDiv count (GeneratorPool.chunkSize count threads) ∧
    GeneratorPool.numTasks count threads ≤ GeneratorPool.workerCount count threads ∧
    (∀ x ∈ (GeneratorPool.chunks count threads).dropLast,
      x = GeneratorPool.chunkSize count threads) ∧
    (∀ x ∈ GeneratorPool.chunks count threads,
      1 ≤ x ∧ x ≤ GeneratorPool.chunkSize count threads) ∧
    (∀ outputs : List (List Json),
      outputs.map List.length = GeneratorPool.chunks count threads →
      outputs.flatten.length = count) := by
  have hwc : 1 ≤ GeneratorPool.workerCount count threads := by
    unfold GeneratorPool.workerCount GeneratorPool.optimalChunkSize
    have h1 : 1 ≤ ceilDiv count 25 := one_le_ceilDiv count 25 (by omega) (by omega)
    omega
  have hcs : 1 ≤ GeneratorPool.chunkSize count threads :=
    one_le_ceilDiv count _ (by omega) hwc
  have hsum : (GeneratorPool.chunks count threads).sum = count :=
    GeneratorPool.chunksGo_sum _ hcs count count le_rfl
  have hlen : GeneratorPool.numTasks count threads =
      ceilDiv count (GeneratorPool.chunkSize count threads) :=
    GeneratorPool.chunksGo_length _ hcs count count le_rfl
  refine ⟨hsum, hlen, ?_, ?_, ?_, ?_⟩
  · rw [hlen, ceilDiv_le_iff count _ _ hcs]
    exact le_mul_ceilDiv count _ hwc
  · exact GeneratorPool.chunksGo_dropLast _ hcs count count le_rfl
  · exact GeneratorPool.chunksGo_mem _ hcs count count
  · intro outputs h
    have : outputs.flatten.length = (outputs.map List.length).sum := by
      simp
    rw [this, h, hsum]

/-- C6 witness: the amended fan-out facts at count 100 with 2 threads
(workerCount 4, chunkSize 25, four chunks summing to 100). -/
theorem C6_witness :
    (GeneratorPool.chunks 100 2).sum = 100 ∧
    GeneratorPool.numTasks 100 2 ≤ GeneratorPool.workerCount 100 2 := by
  have h := C6_amended 100 2 (by decide) (by decide)
  exact ⟨h.1, h.2.2.1⟩

/-- C2: for every call to `GeneratorPool.generate` exactly one of the
three outcomes occurs: on success `completedJobs` is incremented once,
`totalGenerated` grows by the number of delivered records and
`totalDuration` by the elapsed time (with `abortedJobs` untouched); on an
`AbortError` only `abortedJobs` is incremented (and `JobAbortedError` is
thrown); on any other failure no counter changes (and `GenerationError`
is thrown).  The hypothesis is the worker contract — each resolved task
delivers exactly the records requested of it, so the delivered total is
`count` (on the fan-out path the source adds the actual
`allData.length`, on the single-task path it adds `count`; under the
contract both equal the delivered record count).  In particular no call
increments `completedJobs` more than once. -/
theorem C2_counter_exclusivity (stats : GeneratorPool.Stats) (count : Nat)
    (streaming : Bool) (elapsed : Nat) (outcome : GeneratorPool.RunOutcome)
    (hcontract : ∀ rs, outcome = .success rs → rs.flatten.length = count) :
    (∀ rs, outcome = .success rs →
      (GeneratorPool.generate stats count streaming elapsed outcome).1 =
        { stats with
            totalGenerated := stats.totalGenerated + count,
            totalDuration := stats.totalDuration + elapsed,
            completedJobs := stats.completedJobs + 1 } ∧
      (GeneratorPool.generate stats count streaming elapsed outcome).2 =
        .ok rs.flatten) ∧
    (outcome = .abortError →
      (GeneratorPool.generate stats count streaming elapsed outcome).1 =
        { stats with abortedJobs := stats.abortedJobs + 1 } ∧
      (GeneratorPool.generate stats count streaming elapsed outcome).2 =
        .jobAborted) ∧
    (outcome = .otherError →
      GeneratorPool.generate stats count streaming elapsed outcome =
        (stats, .generationError)) ∧
    (GeneratorPool.generate stats count streaming elapsed outcome).1.completedJobs ≤
      stats.completedJobs + 1 := by
  unfold GeneratorPool.generate
  by_cases hb : (50 ≤ count && !streaming) = true
  · rw [if_pos hb]
    cases outcome with
    | success rs =>
      have hlen := hcontract rs rfl
      refine ⟨?_, ?_, ?_, ?_⟩
      · intro rs2 h2
        cases h2
        rw [← hlen]
        exact ⟨rfl, rfl⟩
      · intro h
        cases h
      · intro h
        cases h
      · simp
    | abortError =>
      refine ⟨?_, fun _ => ⟨rfl, rfl⟩, ?_, ?_⟩
      · intro rs h
        cases h
      · intro h
        cases h
      · simp
    | otherError =>
      refine ⟨?_, ?_, fun _ => rfl, ?_⟩
      · intro rs h
        cases h
      · intro h
        cases h
      · simp
  · rw [if_neg hb]
    cases outcome with
    | success rs =>
      refine ⟨?_, ?_, ?_, ?_⟩
      · intro rs2 h2
        cases h2
        exact ⟨rfl, rfl⟩
      · intro h
        cases h
      · intro h
        cases h
      · simp
    | abortError =>
      refine ⟨?_, fun _ => ⟨rfl, rfl⟩, ?_, ?_⟩
      · intro rs h
        cases h
      · intro h
        cases h
      · simp
    | otherError =>
      refine ⟨?_, ?_, fun _ => rfl, ?_⟩
      · intro rs h
        cases h
      · intro h
        cases h
      · simp

/-- C2 witness: a concrete successful single-task call (count 2, 5 ms)
starting from zeroed stats ends with exactly one completed job, two
generated records, five milliseconds of duration and no aborts. -/
theorem C2_witness :
    (GeneratorPool.generate ⟨0, 0, 0, 0⟩ 2 false 5
      (.success [[Json.null, Json.null]])).1 =
      (⟨2, 5, 1, 0⟩ : GeneratorPool.Stats) := by
  have h := C2_counter_exclusivity ⟨0, 0, 0, 0⟩ 2 false 5
    (.success [[Json.null, Json.null]])
    (by intro rs hrs; cases hrs; rfl)
  exact (h.1 [[Json.null, Json.null]] rfl).1

namespace StreamRoute

/-- The size a record contributes to the stream (data chunks carry their
chunk size; control records carry none). -/
def recordSize : StreamRecord → Nat
  | .dataChunk _ t _ _ => t
  | _ => 0

/-- The claim's property of a stream body: an abort record is the last
record — nothing (data chunk or terminal done record) follows it. -/
def abortEndsBody (records : List StreamRecord) : Prop :=
  ∀ i m c, records.get? i = some (.abortRec m c) → i + 1 = records.length

/-- Shape of a writer-loop run containing an abort record: everything
before it is a data chunk of this stream, its `completed` field is the
cumulative record count sent so far, and it is followed by exactly one
more record — the terminal done record (written by the code after the
loop, which the `break` falls through to). -/
theorem streamGo_abort (cs total : Nat) (abortAt failAt : Nat → Bool) :
    ∀ fuel r chunkIdx totalSent pre m c post,
    streamGo cs total abortAt failAt fuel r chunkIdx totalSent =
      pre ++ .abortRec m c :: post →
    m = "Job stopped by user" ∧
    c = totalSent + (pre.map recordSize).sum ∧
    post = [.doneRec c (chunkIdx + pre.length)] ∧
    ∀ x ∈ pre, ∃ i t comp, x = .dataChunk i t comp total := by
  intro fuel
  induction fuel with
  | zero =>
    intro r chunkIdx totalSent pre m c post h
    simp [streamGo] at h
  | succ fuel ih =>
    intro r chunkIdx totalSent pre m c post h
    match r with
    | 0 =>
      simp only [streamGo] at h
      cases pre with
      | nil => simp at h
      | cons a pre2 =>
        simp only [List.cons_append, List.cons.injEq] at h
        exact absurd h.2 (by simp)
    | r + 1 =>
      simp only [streamGo] at h
      by_cases habort : abortAt chunkIdx = true
      · rw [if_pos habort] at h
        cases pre with
        | nil =>
          simp only [List.nil_append, List.cons.injEq, StreamRecord.abortRec.injEq] at h
          obtain ⟨⟨hm, hc⟩, hpost⟩ := h
          subst hm
          subst hc
          subst hpost
          refine ⟨rfl, by simp, by simp, by simp⟩
        | cons a pre2 =>
          simp only [List.cons_append, List.cons.injEq] at h
          obtain ⟨ha, h2⟩ := h
          cases pre2 with
          | nil => simp at h2
          | cons b pre3 =>
            simp only [List.cons_append, List.cons.injEq] at h2
            obtain ⟨hb, h3⟩ := h2
            exact absurd h3 (by simp)
      · rw [if_neg habort] at h
        by_cases hfail : failAt chunkIdx = true
        · rw [if_pos hfail] at h
          cases pre with
          | nil => simp at h
          | cons a pre2 =>
            simp only [List.cons_append, List.cons.injEq] at h
            exact absurd h.2 (by simp)
        · rw [if_neg hfail] at h
          cases pre with
          | nil => simp at h
          | cons a pre2 =>
            simp only [List.cons_append, List.cons.injEq] at h
            obtain ⟨ha, h2⟩ := h
            obtain ⟨hm, hc, hpost, hmem⟩ := ih _ _ _ pre2 m c post h2
            subst ha
            refine ⟨hm, ?_, ?_, ?_⟩
            · subst hc
              simp only [List.map_cons, List.sum_cons, recordSize]
              exact Nat.add_assoc _ _ _
            · rw [hpost, hc]
              simp only [List.length_cons, List.cons.injEq, StreamRecord.doneRec.injEq,
                true_and, and_true]
              omega
            · intro x hx
              rcases List.mem_cons.mp hx with h | h
              · subst h
                exact ⟨_, _, _, rfl⟩
              · exact hmem x h

end StreamRoute

/-- C3 counterexample: aborting a 1000-record stream (chunk size 500)
before its second chunk produces the abort record followed by a further
record — the terminal `done` record.  The claim says the body ends at
the abort record with nothing after it; the produced body refutes
that. -/
theorem C3_counterexample :
    StreamRoute.streamHandler 1000 500 (fun i => i == 1) (fun _ => false) =
      [.dataChunk 0 500 500 1000,
       .abortRec "Job stopped by user" 500,
       .doneRec 500 1] ∧
    ¬ StreamRoute.abortEndsBody
        (StreamRoute.streamHandler 1000 500 (fun i => i == 1) (fun _ => false)) := by
  have h : StreamRoute.streamHandler 1000 500 (fun i => i == 1) (fun _ => false) =
      [.dataChunk 0 500 500 1000,
       .abortRec "Job stopped by user" 500,
       .doneRec 500 1] := rfl
  refine ⟨h, ?_⟩
  intro habs
  unfold StreamRoute.abortEndsBody at habs
  rw [h] at habs
  have h2 := habs 1 "Job stopped by user" 500 rfl
  simp at h2

/-- C3 amended: when a single-schema stream is aborted mid-stream, the
writer emits the record
`{"error":"aborted","message":"Job stopped by user","completed":<cumulative>}`
(whose `completed` field is exactly the number of records streamed so
far), and after it exactly one further record is emitted — the terminal
`done` record (the loop `break` falls through to the completion write) —
before the body ends; no data chunks follow the abort record. -/
theorem C3_amended (count chunkSizeRaw : Nat) (abortAt failAt : Nat → Bool)
    (pre post : List StreamRoute.StreamRecord) (m : String) (c : Nat)
    (h : StreamRoute.streamHandler count chunkSizeRaw abortAt failAt =
      pre ++ .abortRec m c :: post) :
    m = "Job stopped by user" ∧
    c = (pre.map StreamRoute.recordSize).sum ∧
    post = [.doneRec c pre.length] ∧
    ∀ x ∈ pre, ∃ i t comp, x = .dataChunk i t comp count := by
  have h2 := StreamRoute.streamGo_abort (StreamRoute.safeChunkSize chunkSizeRaw)
    count abortAt failAt count count 0 0 pre m c post h
  obtain ⟨hm, hc, hpost, hmem⟩ := h2
  refine ⟨hm, by omega, by simpa using hpost, hmem⟩

/-- C3 witness: aborting a 1000-record stream before its second chunk
satisfies the amended description — one data chunk, the abort record
with `completed` 500, then the terminal done record. -/
theorem C3_witness :
    StreamRoute.streamHandler 1000 500 (fun i => i == 1) (fun _ => false) =
      [StreamRoute.StreamRecord.dataChunk 0 500 500 1000] ++
        .abortRec "Job stopped by user" 500 :: [.doneRec 500 1] ∧
    (500 : Nat) =
      (([StreamRoute.StreamRecord.dataChunk 0 500 500 1000]).map
        StreamRoute.recordSize).sum :=
  ⟨rfl,
   (C3_amended 1000 500 (fun i => i == 1) (fun _ => false)
     [.dataChunk 0 500 500 1000] [.doneRec 500 1]
     "Job stopped by user" 500 rfl).2.1⟩

/-- C10: registering two concurrent requests under the same external job
id makes the second registration overwrite the `job:<id>` alias; when
either request unregisters, the alias is deleted outright; in particular
after the first request unregisters, `abortByJobId` for that id returns
false and changes nothing (no controller signalled, no entry removed),
even though the second request is still present in the registry. -/
theorem C10_jobid_alias (st : JobService.JobState) (j : String) (c1 c2 r1 r2 : Nat)
    (st1 st2 : JobService.JobState) (hj : j ≠ "")
    (h1 : JobService.registerRequest st (some j) c1 = (r1, st1))
    (h2 : JobService.registerRequest st1 (some j) c2 = (r2, st2)) :
    assocGet st2.jobAliases j = some r2 ∧
    assocGet (JobService.unregisterRequest st2 r2).jobAliases j = none ∧
    assocGet (JobService.unregisterRequest st2 r1).jobAliases j = none ∧
    JobService.abortByJobId (JobService.unregisterRequest st2 r1) j =
      (false, JobService.unregisterRequest st2 r1) ∧
    assocGet (JobService.unregisterRequest st2 r1).requests r2 =
      some ⟨r2, some j, c2⟩ := by
  have hjb : (j != "") = true := by
    simpa using hj
  simp only [JobService.registerRequest, hjb, if_pos] at h1 h2
  obtain ⟨hr1, hst1⟩ := Prod.mk.injEq .. ▸ h1
  obtain ⟨hr2, hst2⟩ := Prod.mk.injEq .. ▸ h2
  subst hr1
  subst hst1
  subst hr2
  subst hst2
  set N := st.requestIdCounter with hN
  have hne : N + 2 ≠ N + 1 := by omega
  have hga : assocGet
      (assocSet (assocSet st.jobAliases j (N + 1)) j (N + 1 + 1)) j =
      some (N + 1 + 1) := assocGet_assocSet_self ..
  have hgr1 : assocGet
      (assocSet (assocSet st.requests (N + 1) ⟨N + 1, some j, c1⟩)
        (N + 1 + 1) ⟨N + 1 + 1, some j, c2⟩) (N + 1) =
      some ⟨N + 1, some j, c1⟩ := by
    rw [assocGet_assocSet_ne _ _ _ _ (by omega)]
    exact assocGet_assocSet_self ..
  have hgr2 : assocGet
      (assocSet (assocSet st.requests (N + 1) ⟨N + 1, some j, c1⟩)
        (N + 1 + 1) ⟨N + 1 + 1, some j, c2⟩) (N + 1 + 1) =
      some ⟨N + 1 + 1, some j, c2⟩ := assocGet_assocSet_self ..
  refine ⟨hga, ?_, ?_, ?_, ?_⟩
  · simp only [JobService.unregisterRequest, hgr2, hjb, if_pos]
    exact assocGet_assocDel_self ..
  · simp only [JobService.unregisterRequest, hgr1, hjb, if_pos]
    exact assocGet_assocDel_self ..
  · have hnone : assocGet (JobService.unregisterRequest
        { st with
            requestIdCounter := N + 1 + 1,
            requests := assocSet (assocSet st.requests (N + 1) ⟨N + 1, some j, c1⟩)
              (N + 1 + 1) ⟨N + 1 + 1, some j, c2⟩,
            jobAliases := assocSet (assocSet st.jobAliases j (N + 1)) j (N + 1 + 1) }
        (N + 1)).jobAliases j = none := by
      simp only [JobService.unregisterRequest, hgr1, hjb, if_pos]
      exact assocGet_assocDel_self ..
    simp only [JobService.abortByJobId, hnone]
  · simp only [JobService.unregisterRequest, hgr1, hjb, if_pos]
    rw [assocGet_assocDel_ne _ _ _ (by omega)]
    exact hgr2

/-- C10 witness: the alias shadowing scenario run concretely from the
empty registry with job id "jobA" — the second registration gets request
id 2, unregistering request 1 deletes the alias, and the stop-by-job-id
request then finds nothing even though request 2 is still registered. -/
theorem C10_witness :
    ("jobA" : String) ≠ "" ∧
    JobService.registerRequest ⟨[], [], 0, []⟩ (some "jobA") 5 =
      (1, ⟨[(1, ⟨1, some "jobA", 5⟩)], [("jobA", 1)], 1, []⟩) ∧
    assocGet (JobService.unregisterRequest
      (JobService.registerRequest
        (JobService.registerRequest ⟨[], [], 0, []⟩ (some "jobA") 5).2
        (some "jobA") 7).2 1).requests 2 = some ⟨2, some "jobA", 7⟩ := by
  refine ⟨by decide, rfl, ?_⟩
  have h := C10_jobid_alias ⟨[], [], 0, []⟩ "jobA" 5 7 1 2
    (JobService.registerRequest ⟨[], [], 0, []⟩ (some "jobA") 5).2
    (JobService.registerRequest
      (JobService.registerRequest ⟨[], [], 0, []⟩ (some "jobA") 5).2
      (some "jobA") 7).2
    (by decide) rfl rfl
  exact h.2.2.2.2

/-- C8: `validateSchema` returns invalid exactly when the value is
missing/falsy or not an object, or a `type` field is present whose value
is not one of the seven type names, or the underlying validator's
compilation throws; it reports exactly one error in each failing case
(short-circuiting on the first) and otherwise returns valid with an
empty error list.  The underlying validator is abstract
(`compileFails`); the hypothesis is the one fact needed of it — a
schema whose `type` value is present but falsy (empty string, 0, false,
null) slips past the source's truthiness-guarded membership test, and
compilation of such a schema fails (AJV meta-schema validation rejects
these `type` values), which keeps the claimed equivalence exact. -/
theorem C8_validateSchema (compileFails : Json → Bool) (schema : Json)
    (hslip : ∀ t, jget schema "type" = some t → truthy t = false →
      compileFails schema = true) :
    ((SchemaService.validateSchema compileFails schema).valid = false ↔
      (¬(truthy schema = true ∧ isObjLike schema = true) ∨
       (∃ t, jget schema "type" = some t ∧ SchemaService.typeIsValid t = false) ∨
       compileFails schema = true)) ∧
    ((SchemaService.validateSchema compileFails schema).valid = true →
      (SchemaService.validateSchema compileFails schema).errors = []) ∧
    (SchemaService.validateSchema compileFails schema).errors.length ≤ 1 := by
  by_cases h1 : truthy schema = true
  · by_cases h2 : isObjLike schema = true
    · cases ht : jget schema "type" with
      | some t =>
        by_cases h3 : (truthy t && !SchemaService.typeIsValid t) = true
        · have hres : SchemaService.validateSchema compileFails schema =
              ⟨false, ["Invalid schema type"]⟩ := by
            simp [SchemaService.validateSchema, h1, h2, ht, h3]
          rw [hres]
          refine ⟨?_, ?_, ?_⟩
          · have h3b : SchemaService.typeIsValid t = false := by
              have hand := (Bool.and_eq_true _ _).mp h3
              cases hx : SchemaService.typeIsValid t
              · rfl
              · rw [hx] at hand
                simp at hand
            exact ⟨fun _ => Or.inr (Or.inl ⟨t, rfl, h3b⟩), fun _ => rfl⟩
          · intro h
            simp at h
          · simp
        · by_cases h4 : compileFails schema = true
          · have hres : SchemaService.validateSchema compileFails schema =
                ⟨false, ["schema compile error"]⟩ := by
              simp [SchemaService.validateSchema, h1, h2, ht, h3, h4]
            rw [hres]
            refine ⟨?_, ?_, ?_⟩
            · exact ⟨fun _ => Or.inr (Or.inr h4), fun _ => rfl⟩
            · intro h
              simp at h
            · simp
          · have hres : SchemaService.validateSchema compileFails schema =
                ⟨true, []⟩ := by
              simp [SchemaService.validateSchema, h1, h2, ht, h3, h4]
            rw [hres]
            refine ⟨?_, ?_, ?_⟩
            · constructor
              · intro h
                simp at h
              · intro h
                exfalso
                rcases h with h | ⟨t2, ht2, hval⟩ | h
                · exact h ⟨h1, h2⟩
                · cases ht2
                  by_cases h6 : truthy t = true
                  · apply h3
                    simp [h6, hval]
                  · have h6f : truthy t = false := by
                      cases hx : truthy t
                      · rfl
                      · exact absurd hx h6
                    exact h4 (hslip t ht h6f)
                · exact h4 h
            · intro h
              rfl
            · simp
      | none =>
        by_cases h4 : compileFails schema = true
        · have hres : SchemaService.validateSchema compileFails schema =
              ⟨false, ["schema compile error"]⟩ := by
            simp [SchemaService.validateSchema, h1, h2, ht, h4]
          rw [hres]
          refine ⟨?_, ?_, ?_⟩
          · exact ⟨fun _ => Or.inr (Or.inr h4), fun _ => rfl⟩
          · intro h
            simp at h
          · simp
        · have hres : SchemaService.validateSchema compileFails schema =
              ⟨true, []⟩ := by
            simp [SchemaService.validateSchema, h1, h2, ht, h4]
          rw [hres]
          refine ⟨?_, ?_, ?_⟩
          · constructor
            · intro h
              simp at h
            · intro h
              exfalso
              rcases h with h | ⟨t2, ht2, hval⟩ | h
              · exact h ⟨h1, h2⟩
              · cases ht2
              · exact h4 h
          · intro h
            rfl
          · simp
    · have h2f : isObjLike schema = false := by
        cases hx : isObjLike schema
        · rfl
        · exact absurd hx h2
      have hres : SchemaService.validateSchema compileFails schema =
          ⟨false, ["Schema must be an object"]⟩ := by
        simp [SchemaService.validateSchema, h1, h2f]
      rw [hres]
      refine ⟨?_, ?_, ?_⟩
      · refine ⟨fun _ => Or.inl ?_, fun _ => rfl⟩
        intro hand
        rw [h2f] at hand
        cases hand.2
      · intro h
        simp at h
      · simp
  · have h1f : truthy schema = false := by
      cases hx : truthy schema
      · rfl
      · exact absurd hx h1
    have hres : SchemaService.validateSchema compileFails schema =
        ⟨false, ["Schema is required"]⟩ := by
      simp [SchemaService.validateSchema, h1f]
    rw [hres]
    refine ⟨?_, ?_, ?_⟩
    · refine ⟨fun _ => Or.inl ?_, fun _ => rfl⟩
      intro hand
      rw [h1f] at hand
      cases hand.1
    · intro h
      simp at h
    · simp

/-- C8 witness: the concrete schema `{"type":"banana"}` (spec scenario F)
with a validator that never throws — the well-formedness check alone
rejects it, through the type-membership branch of the equivalence. -/
theorem C8_witness :
    (SchemaService.validateSchema (fun _ => false)
      (Json.obj [("type", Json.str "banana")])).valid = false := by
  have h := C8_validateSchema (fun _ => false)
    (Json.obj [("type", Json.str "banana")])
    (by
      intro t ht htr
      simp only [jget, assocGet, if_pos] at ht
      cases ht
      simp [truthy] at htr)
  exact h.1.mpr (Or.inr (Or.inl ⟨Json.str "banana", rfl, by decide⟩))

/-
Constructor-preservation lemmas: the schema transformations never change
the shape of a node (objects stay objects, primitives are untouched), so
JavaScript truthiness and object-ness are invariant under them.
-/

theorem truthy_removeIdRecursive (j : Json) :
    truthy (removeIdRecursive j) = truthy j := by
  cases j <;> rfl

theorem isObjLike_removeIdRecursive (j : Json) :
    isObjLike (removeIdRecursive j) = isObjLike j := by
  cases j <;> rfl

theorem truthy_removeIdChildren (j : Json) :
    truthy (removeIdChildren j) = truthy j := by
  cases j <;> rfl

theorem truthy_enforce (m : Bool) (j : Json) :
    truthy (GeneratorWorker.enforceAdditionalProperties m j) = truthy j := by
  cases j with
  | obj l =>
    simp only [GeneratorWorker.enforceAdditionalProperties]
    split <;> rfl
  | null => rfl
  | bool b => rfl
  | num n => rfl
  | str s => rfl
  | arr l => rfl

theorem isObjLike_enforce (m : Bool) (j : Json) :
    isObjLike (GeneratorWorker.enforceAdditionalProperties m j) = isObjLike j := by
  cases j with
  | obj l =>
    simp only [GeneratorWorker.enforceAdditionalProperties]
    split <;> rfl
  | null => rfl
  | bool b => rfl
  | num n => rfl
  | str s => rfl
  | arr l => rfl

theorem truthy_enforceChildren (m : Bool) (j : Json) :
    truthy (GeneratorWorker.enforceChildren m j) = truthy j := by
  cases j <;> rfl

/-- Friendly forms of lookup-through-append. -/
theorem assocGet_append_left [DecidableEq κ] (a b : List (κ × α)) (k : κ) (v : α)
    (h : assocGet a k = some v) : assocGet (a ++ b) k = some v := by
  rw [assocGet_append, h]

theorem assocGet_append_right [DecidableEq κ] (a b : List (κ × α)) (k : κ)
    (h : assocGet a k = none) : assocGet (a ++ b) k = assocGet b k := by
  rw [assocGet_append, h]

/-- What `removeIdEntries` does to each binding, as a lookup equation:
the `$id` binding is gone, every other binding keeps its key and has its
value rewritten by the matching branch. -/
theorem assocGet_removeIdEntries (l : List (String × Json)) (k : String) :
    assocGet (removeIdEntries l) k =
      if k = "$id" then none
      else (assocGet l k).map (fun v =>
        if k = "properties" then (if truthy v then removeIdChildren v else v)
        else if k = "items" then (if truthy v then removeIdRecursive v else v)
        else if k = "additionalProperties" then
          (if truthy v && isObjLike v then removeIdRecursive v else v)
        else v) := by
  induction l with
  | nil =>
    simp only [removeIdEntries, assocGet]
    split <;> rfl
  | cons p t ih =>
    obtain ⟨k1, v1⟩ := p
    by_cases hid : k1 = "$id"
    · subst hid
      have h1 : removeIdEntries (("$id", v1) :: t) = removeIdEntries t := by
        simp [removeIdEntries]
      rw [h1, ih]
      by_cases hk : k = "$id"
      · simp [hk]
      · rw [if_neg hk, if_neg hk]
        have h2 : assocGet (("$id", v1) :: t) k = assocGet t k := by
          simp only [assocGet]
          rw [if_neg (fun h => hk h.symm)]
        rw [h2]
    · have h1 : removeIdEntries ((k1, v1) :: t) =
          (k1,
            if k1 = "properties" then (if truthy v1 then removeIdChildren v1 else v1)
            else if k1 = "items" then (if truthy v1 then removeIdRecursive v1 else v1)
            else if k1 = "additionalProperties" then
              (if truthy v1 && isObjLike v1 then removeIdRecursive v1 else v1)
            else v1) :: removeIdEntries t := by
        simp [removeIdEntries, hid]
      rw [h1]
      by_cases h : k1 = k
      · subst h
        simp only [assocGet, if_pos rfl, if_neg hid]
        rfl
      · simp only [assocGet, if_neg h]
        rw [ih]

/-- What `enforceEntries` does to each binding, as a lookup equation:
every binding keeps its key, and its value is rewritten by the matching
branch (only `properties`, `items` and `additionalProperties` are ever
changed). -/
theorem assocGet_enforceEntries (m d : Bool) (l : List (String × Json)) (k : String) :
    assocGet (GeneratorWorker.enforceEntries m d l) k =
      (assocGet l k).map (fun v =>
        if k = "properties" then
          (if truthy v then GeneratorWorker.enforceChildren m v else v)
        else if k = "items" then
          (if truthy v then GeneratorWorker.enforceAdditionalProperties m v else v)
        else if k = "additionalProperties" then
          (if d then
            (if m then
              (match v with
               | .bool false => .bool true
               | _ =>
                 if truthy v && isObjLike v then
                   GeneratorWorker.enforceAdditionalProperties m v
                 else v)
             else .bool false)
           else
            (if truthy v && isObjLike v then
              GeneratorWorker.enforceAdditionalProperties m v
             else v))
        else v) := by
  induction l with
  | nil => rfl
  | cons p t ih =>
    obtain ⟨k1, v1⟩ := p
    simp only [GeneratorWorker.enforceEntries]
    by_cases h : k1 = k
    · subst h
      simp only [assocGet, if_pos rfl]
      rfl
    · simp only [assocGet, if_neg h]
      rw [ih]

/-- Keys untouched by `enforceEntries`: any binding other than
`properties`, `items` and `additionalProperties` — in particular
`type` — is preserved verbatim. -/
theorem assocGet_enforceEntries_other (m d : Bool) (l : List (String × Json))
    (k : String) (h1 : k ≠ "properties") (h2 : k ≠ "items")
    (h3 : k ≠ "additionalProperties") :
    assocGet (GeneratorWorker.enforceEntries m d l) k = assocGet l k := by
  rw [assocGet_enforceEntries]
  simp only [if_neg h1, if_neg h2, if_neg h3]
  cases assocGet l k <;> rfl

mutual

/-- A second pass of `$id` removal changes nothing: the first pass
already removed every `$id` binding the traversal reaches, and the
traversal of the output visits the same nodes. -/
theorem removeIdRecursive_idem : ∀ j, removeIdRecursive (removeIdRecursive j) = removeIdRecursive j
  | .null => rfl
  | .bool _ => rfl
  | .num _ => rfl
  | .str _ => rfl
  | .arr _ => rfl
  | .obj l => congrArg Json.obj (removeIdEntries_idem l)

theorem removeIdEntries_idem : ∀ l, removeIdEntries (removeIdEntries l) = removeIdEntries l
  | [] => rfl
  | (k, v) :: t => by
    by_cases hid : k = "$id"
    · simp only [removeIdEntries, if_pos hid]
      exact removeIdEntries_idem t
    · simp only [removeIdEntries, if_neg hid]
      congr 1
      · congr 1
        by_cases hp : k = "properties"
        · simp only [if_pos hp]
          by_cases htr : truthy v = true
          · simp [htr, truthy_removeIdChildren, removeIdChildren_idem v]
          · simp [htr]
        · simp only [if_neg hp]
          by_cases hi : k = "items"
          · simp only [if_pos hi]
            by_cases htr : truthy v = true
            · simp [htr, truthy_removeIdRecursive, removeIdRecursive_idem v]
            · simp [htr]
          · simp only [if_neg hi]
            by_cases ha : k = "additionalProperties"
            · simp only [if_pos ha]
              by_cases hc : (truthy v && isObjLike v) = true
              · simp [hc, truthy_removeIdRecursive, isObjLike_removeIdRecursive,
                  removeIdRecursive_idem v]
              · simp [hc]
            · simp only [if_neg ha]
      · exact removeIdEntries_idem t

theorem removeIdChildren_idem : ∀ j, removeIdChildren (removeIdChildren j) = removeIdChildren j
  | .null => rfl
  | .bool _ => rfl
  | .num _ => rfl
  | .str _ => rfl
  | .arr l => congrArg Json.arr (removeIdList_idem l)
  | .obj l => congrArg Json.obj (removeIdPairs_idem l)

theorem removeIdPairs_idem : ∀ l, removeIdPairs (removeIdPairs l) = removeIdPairs l
  | [] => rfl
  | (k, v) :: t => by
    simp only [removeIdPairs]
    rw [removeIdRecursive_idem v, removeIdPairs_idem t]

theorem removeIdList_idem : ∀ l, removeIdList (removeIdList l) = removeIdList l
  | [] => rfl
  | v :: t => by
    simp only [removeIdList]
    rw [removeIdRecursive_idem v, removeIdList_idem t]

end

namespace GeneratorWorker

/-- `enforceEntries` processes entries independently, so it distributes
over append. -/
theorem enforceEntries_append (m d : Bool) (a b : List (String × Json)) :
    enforceEntries m d (a ++ b) = enforceEntries m d a ++ enforceEntries m d b := by
  induction a with
  | nil => rfl
  | cons p t ih =>
    obtain ⟨k, v⟩ := p
    simp only [List.cons_append, enforceEntries, List.append_eq, ih]

/-- The `type` binding survives `enforceAdditionalProperties` at an
object node, including through the appended `additionalProperties`
binding. -/
theorem assocGet_enforce_type (m d : Bool) (l : List (String × Json)) :
    assocGet (enforceEntries m d l ++ [("additionalProperties", Json.bool m)])
      "type" = assocGet l "type" := by
  have h1 : assocGet (enforceEntries m d l) "type" = assocGet l "type" :=
    assocGet_enforceEntries_other m d l "type" (by decide) (by decide) (by decide)
  cases hx : assocGet l "type" with
  | some v =>
    exact assocGet_append_left _ _ _ _ (h1.trans hx)
  | none =>
    rw [assocGet_append_right _ _ _ (h1.trans hx)]
    rfl

/-- Truthiness of the `properties` binding survives
`enforceAdditionalProperties`, including through the appended binding. -/
theorem truthyOpt_enforce_props (m d : Bool) (l : List (String × Json)) :
    truthyOpt (assocGet
      (enforceEntries m d l ++ [("additionalProperties", Json.bool m)])
      "properties") = truthyOpt (assocGet l "properties") := by
  have h1 := assocGet_enforceEntries m d l "properties"
  simp only [reduceIte, String.reduceEq] at h1
  cases hx : assocGet l "properties" with
  | some v =>
    rw [hx] at h1
    have h2 : assocGet (enforceEntries m d l) "properties" =
        some (if truthy v = true then enforceChildren m v else v) := h1.trans rfl
    rw [assocGet_append_left _ _ _ _ h2]
    by_cases htr : truthy v = true
    · simp [truthyOpt, htr, truthy_enforceChildren]
    · simp [truthyOpt, htr]
  | none =>
    rw [hx] at h1
    have h2 : assocGet (enforceEntries m d l) "properties" = none := h1.trans rfl
    rw [assocGet_append_right _ _ _ h2]
    rfl

/-- Same two facts without the appended binding. -/
theorem truthyOpt_enforceEntries_props (m d : Bool) (l : List (String × Json)) :
    truthyOpt (assocGet (enforceEntries m d l) "properties") =
      truthyOpt (assocGet l "properties") := by
  have h1 := assocGet_enforceEntries m d l "properties"
  simp only [reduceIte, String.reduceEq] at h1
  cases hx : assocGet l "properties" with
  | some v =>
    rw [hx] at h1
    have h2 : assocGet (enforceEntries m d l) "properties" =
        some (if truthy v = true then enforceChildren m v else v) := h1.trans rfl
    rw [h2]
    rcases Bool.eq_false_or_eq_true (truthy v) with htr | htr
    · simp [truthyOpt, htr, truthy_enforceChildren]
    · simp [truthyOpt, htr]
  | none =>
    rw [hx] at h1
    have h2 : assocGet (enforceEntries m d l) "properties" = none := h1.trans rfl
    rw [h2]

end GeneratorWorker

namespace GeneratorWorker

/-- One unfolding of `enforceAdditionalProperties` at an object node. -/
theorem enforce_obj_def (m : Bool) (l : List (String × Json)) :
    enforceAdditionalProperties m (.obj l) =
      (if ((typeHasObject (assocGet l "type") && truthyOpt (assocGet l "properties")) &&
          (assocGet l "additionalProperties").isNone) = true then
        Json.obj (enforceEntries m
          (typeHasObject (assocGet l "type") && truthyOpt (assocGet l "properties")) l ++
          [("additionalProperties", .bool m)])
      else
        Json.obj (enforceEntries m
          (typeHasObject (assocGet l "type") && truthyOpt (assocGet l "properties")) l)) := by
  simp only [enforceAdditionalProperties]

/-- `isNone` of the `additionalProperties` lookup is preserved by
`enforceEntries` (the binding is rewritten in place, never dropped or
created). -/
theorem isNone_enforceEntries_ap (m d : Bool) (l : List (String × Json)) :
    (assocGet (enforceEntries m d l) "additionalProperties").isNone =
      (assocGet l "additionalProperties").isNone := by
  have h1 := assocGet_enforceEntries m d l "additionalProperties"
  cases hx : assocGet l "additionalProperties" with
  | some v =>
    rw [hx] at h1
    rw [h1]
    rfl
  | none =>
    rw [hx] at h1
    rw [h1]
    rfl

mutual

/-- Running `enforceAdditionalProperties` twice in the same mode equals
running it once: at every node the set step is stable (a forced `false`
stays `false`, a created `true` is neither `undefined` nor `false`, so
the random-mode guard skips it) and the recursion channels are
unchanged. -/
theorem enforce_idem (m : Bool) : ∀ j,
    enforceAdditionalProperties m (enforceAdditionalProperties m j) =
      enforceAdditionalProperties m j
  | .null => rfl
  | .bool _ => rfl
  | .num _ => rfl
  | .str _ => rfl
  | .arr _ => rfl
  | .obj l => by
    rw [enforce_obj_def]
    by_cases happ : ((typeHasObject (assocGet l "type") &&
        truthyOpt (assocGet l "properties")) &&
        (assocGet l "additionalProperties").isNone) = true
    · rw [if_pos happ]
      have happ2 : (typeHasObject (assocGet l "type") &&
          truthyOpt (assocGet l "properties")) = true ∧
          assocGet l "additionalProperties" = none := by
        simpa [Option.isNone_iff_eq_none] using happ
      rw [enforce_obj_def]
      have htype := assocGet_enforce_type m
        (typeHasObject (assocGet l "type") && truthyOpt (assocGet l "properties")) l
      have hprops := truthyOpt_enforce_props m
        (typeHasObject (assocGet l "type") && truthyOpt (assocGet l "properties")) l
      have hap2 : assocGet
          (enforceEntries m (typeHasObject (assocGet l "type") &&
            truthyOpt (assocGet l "properties")) l ++
            [("additionalProperties", Json.bool m)]) "additionalProperties" =
          some (.bool m) := by
        have h1 := assocGet_enforceEntries m
          (typeHasObject (assocGet l "type") && truthyOpt (assocGet l "properties"))
          l "additionalProperties"
        rw [happ2.2] at h1
        have h2 : assocGet (enforceEntries m
            (typeHasObject (assocGet l "type") && truthyOpt (assocGet l "properties")) l)
            "additionalProperties" = none := h1.trans rfl
        rw [assocGet_append_right _ _ _ h2]
        rfl
      rw [htype, hprops, hap2]
      rw [if_neg (by simp)]
      rw [enforceEntries_append]
      have hsingleton : enforceEntries m
          (typeHasObject (assocGet l "type") && truthyOpt (assocGet l "properties"))
          [("additionalProperties", Json.bool m)] =
          [("additionalProperties", Json.bool m)] := by
        cases m
        · simp [enforceEntries, happ2.1]
        · simp [enforceEntries, happ2.1, truthy, isObjLike]
      rw [hsingleton, enforceEntries_idem m _ l]
    · rw [if_neg happ]
      rw [enforce_obj_def]
      have htype2 : assocGet (enforceEntries m
          (typeHasObject (assocGet l "type") && truthyOpt (assocGet l "properties")) l)
          "type" = assocGet l "type" :=
        assocGet_enforceEntries_other _ _ _ _ (by decide) (by decide) (by decide)
      have hprops2 := truthyOpt_enforceEntries_props m
        (typeHasObject (assocGet l "type") && truthyOpt (assocGet l "properties")) l
      have hapiso := isNone_enforceEntries_ap m
        (typeHasObject (assocGet l "type") && truthyOpt (assocGet l "properties")) l
      rw [htype2, hprops2, hapiso]
      rw [if_neg happ]
      exact congrArg Json.obj (enforceEntries_idem m _ l)

theorem enforceEntries_idem (m d : Bool) : ∀ l,
    enforceEntries m d (enforceEntries m d l) = enforceEntries m d l
  | [] => rfl
  | (k, v) :: t => by
    simp only [enforceEntries]
    congr 1
    · congr 1
      by_cases hp : k = "properties"
      · simp only [if_pos hp]
        rcases Bool.eq_false_or_eq_true (truthy v) with htr | htr
        · simp [htr, truthy_enforceChildren, enforceChildren_idem m v]
        · simp [htr]
      · simp only [if_neg hp]
        by_cases hi : k = "items"
        · simp only [if_pos hi]
          rcases Bool.eq_false_or_eq_true (truthy v) with htr | htr
          · simp [htr, truthy_enforce, enforce_idem m v]
          · simp [htr]
        · simp only [if_neg hi]
          by_cases ha : k = "additionalProperties"
          · simp only [if_pos ha]
            rcases Bool.eq_false_or_eq_true d with hd | hd
            · simp only [hd, if_true]
              rcases Bool.eq_false_or_eq_true m with hm | hm
              · simp only [hm, if_true]
                cases v with
                | bool b =>
                  cases b
                  · rfl
                  · rfl
                | obj l2 =>
                  have hidem := enforce_idem m (Json.obj l2)
                  rw [hm] at hidem
                  obtain ⟨l3, hl3⟩ : ∃ l3,
                      enforceAdditionalProperties true (Json.obj l2) = .obj l3 := by
                    rw [enforce_obj_def]
                    split
                    · exact ⟨_, rfl⟩
                    · exact ⟨_, rfl⟩
                  rw [hl3] at hidem
                  rw [hl3]
                  simp [truthy, isObjLike, hidem]
                | arr l2 => rfl
                | null => rfl
                | num n => simp [isObjLike]
                | str s => simp [isObjLike]
              · simp [hm]
            · simp only [hd, if_false]
              rcases Bool.eq_false_or_eq_true (truthy v && isObjLike v) with hc | hc
              · simp [hc, truthy_enforce, isObjLike_enforce, enforce_idem m v]
              · simp [hc]
          · simp only [if_neg ha]
    · exact enforceEntries_idem m d t

theorem enforceChildren_idem (m : Bool) : ∀ j,
    enforceChildren m (enforceChildren m j) = enforceChildren m j
  | .null => rfl
  | .bool _ => rfl
  | .num _ => rfl
  | .str _ => rfl
  | .arr l => congrArg Json.arr (enforceList_idem m l)
  | .obj l => congrArg Json.obj (enforcePairs_idem m l)

theorem enforcePairs_idem (m : Bool) : ∀ l,
    enforcePairs m (enforcePairs m l) = enforcePairs m l
  | [] => rfl
  | (k, v) :: t => by
    simp only [enforcePairs]
    rw [enforce_idem m v, enforcePairs_idem m t]

theorem enforceList_idem (m : Bool) : ∀ l,
    enforceList m (enforceList m l) = enforceList m l
  | [] => rfl
  | v :: t => by
    simp only [enforceList]
    rw [enforce_idem m v, enforceList_idem m t]

end

end GeneratorWorker

/-- `removeIdEntries` processes entries independently, so it distributes
over append. -/
theorem removeIdEntries_append (a b : List (String × Json)) :
    removeIdEntries (a ++ b) = removeIdEntries a ++ removeIdEntries b := by
  induction a with
  | nil => rfl
  | cons p t ih =>
    obtain ⟨k, v⟩ := p
    by_cases hid : k = "$id"
    · simp only [List.cons_append, removeIdEntries, if_pos hid, List.append_eq, ih]
    · simp only [List.cons_append, removeIdEntries, if_neg hid, List.append_eq, ih]

/-- The binding appended by the enforce step is boolean, so a later
`$id` sweep leaves it alone. -/
theorem removeIdEntries_apBool (m : Bool) :
    removeIdEntries [("additionalProperties", Json.bool m)] =
      [("additionalProperties", Json.bool m)] := by
  simp [removeIdEntries, isObjLike]

mutual

/-- Stripping `$id` again after the worker pipeline (strip, then
enforce) changes nothing: the strip already cleared every reachable
`$id`, and the enforce step only writes boolean
`additionalProperties` bindings or recurses along the same channels. -/
theorem removeId_enforce_removeId (m : Bool) : ∀ j,
    removeIdRecursive (GeneratorWorker.enforceAdditionalProperties m (removeIdRecursive j)) =
      GeneratorWorker.enforceAdditionalProperties m (removeIdRecursive j)
  | .null => rfl
  | .bool _ => rfl
  | .num _ => rfl
  | .str _ => rfl
  | .arr _ => rfl
  | .obj l => by
    have h1 : ∀ x : List (String × Json),
        removeIdRecursive (Json.obj x) = Json.obj (removeIdEntries x) := fun _ => rfl
    rw [h1, GeneratorWorker.enforce_obj_def]
    split
    · rw [h1, removeIdEntries_append, removeIdEntries_apBool,
        removeIdEntries_enforce m _ l]
    · rw [h1, removeIdEntries_enforce m _ l]

theorem removeIdEntries_enforce (m d : Bool) : ∀ l,
    removeIdEntries (GeneratorWorker.enforceEntries m d (removeIdEntries l)) =
      GeneratorWorker.enforceEntries m d (removeIdEntries l)
  | [] => rfl
  | (k, v) :: t => by
    by_cases hid : k = "$id"
    · simp only [removeIdEntries, if_pos hid]
      exact removeIdEntries_enforce m d t
    · simp only [removeIdEntries, GeneratorWorker.enforceEntries, if_neg hid]
      congr 1
      · congr 1
        by_cases hp : k = "properties"
        · simp only [if_pos hp]
          rcases Bool.eq_false_or_eq_true (truthy v) with htr | htr
          · simp [htr, truthy_removeIdChildren, truthy_enforceChildren,
              removeIdChildren_enforce m v]
          · simp [htr, truthy_removeIdChildren, truthy_enforceChildren,
              removeIdChildren_enforce m v]
        · simp only [if_neg hp]
          by_cases hi : k = "items"
          · simp only [if_pos hi]
            rcases Bool.eq_false_or_eq_true (truthy v) with htr | htr
            · simp [htr, truthy_removeIdRecursive, truthy_enforce,
                removeId_enforce_removeId m v]
            · simp [htr, truthy_removeIdRecursive, truthy_enforce,
                removeId_enforce_removeId m v]
          · simp only [if_neg hi]
            by_cases ha : k = "additionalProperties"
            · simp only [if_pos ha]
              cases v with
              | null => cases d <;> cases m <;> simp [truthy, isObjLike]
              | bool b => cases d <;> cases m <;> cases b <;> simp [truthy, isObjLike]
              | num n => cases d <;> cases m <;> simp [truthy, isObjLike]
              | str s => cases d <;> cases m <;> simp [truthy, isObjLike]
              | arr l2 =>
                cases d <;> cases m <;>
                  simp [truthy, isObjLike, removeIdRecursive,
                    GeneratorWorker.enforceAdditionalProperties]
              | obj l2 =>
                have hmain := removeId_enforce_removeId m (Json.obj l2)
                have h1 : ∀ x : List (String × Json),
                    removeIdRecursive (Json.obj x) = Json.obj (removeIdEntries x) :=
                  fun _ => rfl
                rw [h1] at hmain
                obtain ⟨l3, hl3⟩ : ∃ l3,
                    GeneratorWorker.enforceAdditionalProperties m
                      (Json.obj (removeIdEntries l2)) = .obj l3 := by
                  rw [GeneratorWorker.enforce_obj_def]
                  split
                  · exact ⟨_, rfl⟩
                  · exact ⟨_, rfl⟩
                rw [hl3] at hmain
                have hent : removeIdEntries l3 = l3 := by
                  rw [h1] at hmain
                  exact Json.obj.inj hmain
                cases d <;> cases m <;>
                  simp [truthy, isObjLike, h1, hl3, hent]
            · simp only [if_neg ha]
      · exact removeIdEntries_enforce m d t

theorem removeIdChildren_enforce (m : Bool) : ∀ j,
    removeIdChildren (GeneratorWorker.enforceChildren m (removeIdChildren j)) =
      GeneratorWorker.enforceChildren m (removeIdChildren j)
  | .null => rfl
  | .bool _ => rfl
  | .num _ => rfl
  | .str _ => rfl
  | .arr l => congrArg Json.arr (removeIdList_enforce m l)
  | .obj l => congrArg Json.obj (removeIdPairs_enforce m l)

theorem removeIdPairs_enforce (m : Bool) : ∀ l,
    removeIdPairs (GeneratorWorker.enforcePairs m (removeIdPairs l)) =
      GeneratorWorker.enforcePairs m (removeIdPairs l)
  | [] => rfl
  | (k, v) :: t => by
    simp only [removeIdPairs, GeneratorWorker.enforcePairs]
    rw [removeId_enforce_removeId m v, removeIdPairs_enforce m t]

theorem removeIdList_enforce (m : Bool) : ∀ l,
    removeIdList (GeneratorWorker.enforceList m (removeIdList l)) =
      GeneratorWorker.enforceList m (removeIdList l)
  | [] => rfl
  | v :: t => by
    simp only [removeIdList, GeneratorWorker.enforceList]
    rw [removeId_enforce_removeId m v, removeIdList_enforce m t]

end

mutual

/-- No `$id` binding occurs anywhere in the value — at every object
node, including nodes the preparation traversal never reaches. -/
def noIdDeep : Json → Bool
  | .obj l => noIdDeepEntries l
  | .arr l => noIdDeepList l
  | _ => true

def noIdDeepEntries : List (String × Json) → Bool
  | [] => true
  | (k, v) :: t => k != "$id" && noIdDeep v && noIdDeepEntries t

def noIdDeepList : List Json → Bool
  | [] => true
  | v :: t => noIdDeep v && noIdDeepList t

end

mutual

/-- On a schema with no `$id` anywhere, `$id` removal is the identity. -/
theorem removeId_of_noIdDeep : ∀ j, noIdDeep j = true → removeIdRecursive j = j
  | .null, _ => rfl
  | .bool _, _ => rfl
  | .num _, _ => rfl
  | .str _, _ => rfl
  | .arr _, _ => rfl
  | .obj l, h => congrArg Json.obj (removeIdEntries_of_noIdDeep l h)

theorem removeIdEntries_of_noIdDeep : ∀ l,
    noIdDeepEntries l = true → removeIdEntries l = l
  | [], _ => rfl
  | (k, v) :: t, h => by
    simp only [noIdDeepEntries, Bool.and_eq_true, bne_iff_ne, ne_eq] at h
    obtain ⟨⟨hk, hv⟩, ht⟩ := h
    simp only [removeIdEntries, if_neg hk]
    congr 1
    · congr 1
      by_cases hp : k = "properties"
      · simp only [if_pos hp]
        rw [removeIdChildren_of_noIdDeep v hv]
        split <;> rfl
      · simp only [if_neg hp]
        by_cases hi : k = "items"
        · simp only [if_pos hi]
          rw [removeId_of_noIdDeep v hv]
          split <;> rfl
        · simp only [if_neg hi]
          by_cases ha : k = "additionalProperties"
          · simp only [if_pos ha]
            rw [removeId_of_noIdDeep v hv]
            split <;> rfl
          · simp only [if_neg ha]
    · exact removeIdEntries_of_noIdDeep t ht

theorem removeIdChildren_of_noIdDeep : ∀ j, noIdDeep j = true → removeIdChildren j = j
  | .null, _ => rfl
  | .bool _, _ => rfl
  | .num _, _ => rfl
  | .str _, _ => rfl
  | .arr l, h => congrArg Json.arr (removeIdList_of_noIdDeep l h)
  | .obj l, h => congrArg Json.obj (removeIdPairs_of_noIdDeep l h)

theorem removeIdPairs_of_noIdDeep : ∀ l,
    noIdDeepEntries l = true → removeIdPairs l = l
  | [], _ => rfl
  | (k, v) :: t, h => by
    simp only [noIdDeepEntries, Bool.and_eq_true, bne_iff_ne, ne_eq] at h
    obtain ⟨⟨hk, hv⟩, ht⟩ := h
    simp only [removeIdPairs]
    rw [removeId_of_noIdDeep v hv, removeIdPairs_of_noIdDeep t ht]

theorem removeIdList_of_noIdDeep : ∀ l,
    noIdDeepList l = true → removeIdList l = l
  | [], _ => rfl
  | v :: t, h => by
    simp only [noIdDeepList, Bool.and_eq_true] at h
    simp only [removeIdList]
    rw [removeId_of_noIdDeep v h.1, removeIdList_of_noIdDeep t h.2]

end

/-- C7: schema preparation is idempotent.  The service-level
`prepareSchema` (schemaService.js) satisfies
`prepare (prepare s) = prepare s` for every schema; the worker-level
`prepareSchema(schema, randomMode)` (generator.worker.js) satisfies the
same equation mode-wise; and preparing an already-prepared schema — one
with no `$id` field at any node — returns an equal value. -/
theorem C7_prepare_idempotent :
    (∀ s, SchemaService.prepareSchema (SchemaService.prepareSchema s) =
      SchemaService.prepareSchema s) ∧
    (∀ s m, GeneratorWorker.prepareSchema (GeneratorWorker.prepareSchema s m) m =
      GeneratorWorker.prepareSchema s m) ∧
    (∀ s, noIdDeep s = true → SchemaService.prepareSchema s = s) := by
  refine ⟨?_, ?_, ?_⟩
  · intro s
    unfold SchemaService.prepareSchema
    by_cases hg : (truthy s && isObjLike s) = true
    · rw [if_pos hg]
      rw [if_pos (by
        rw [truthy_removeIdRecursive, isObjLike_removeIdRecursive]
        exact hg)]
      exact removeIdRecursive_idem s
    · rw [if_neg hg, if_neg hg]
  · intro s m
    unfold GeneratorWorker.prepareSchema
    by_cases hg : (truthy s && isObjLike s) = true
    · rw [if_pos hg]
      rw [if_pos (by
        rw [truthy_enforce, isObjLike_enforce, truthy_removeIdRecursive,
          isObjLike_removeIdRecursive]
        exact hg)]
      rw [removeId_enforce_removeId m s]
      exact GeneratorWorker.enforce_idem m (removeIdRecursive s)
    · rw [if_neg hg, if_neg hg]
  · intro s h
    unfold SchemaService.prepareSchema
    by_cases hg : (truthy s && isObjLike s) = true
    · rw [if_pos hg]
      exact removeId_of_noIdDeep s h
    · rw [if_neg hg]

/-- C7 witness: a concrete `$id`-free schema is a fixed point of
preparation. -/
theorem C7_witness :
    noIdDeep (Json.obj [("type", Json.str "object")]) = true ∧
    SchemaService.prepareSchema (Json.obj [("type", Json.str "object")]) =
      Json.obj [("type", Json.str "object")] :=
  ⟨rfl, C7_prepare_idempotent.2.2 (Json.obj [("type", Json.str "object")]) rfl⟩

/-
C5 machinery: the strict-mode closure property, stated over the cleaning
recursion of `cleanExtraProperties`, plus one unfolding lemma per branch
of the two recursive definitions.
-/

/-- The claim's property: at every object node where the schema's `type`
mentions `object` and `properties` is truthy, the value's key set is a
subset of the declared properties and every kept value conforms to its
property schema; arrays are checked element-wise against a truthy
`items`; all other value/schema shapes are unconstrained (non-object
values pass through the post-pass unchanged, and union types apply the
object branch only to actual non-null objects). -/
def conforms (v s : Json) : Bool :=
  if !(truthy v && isObjLike v && truthy s && isObjLike s) then true
  else
    match v with
    | .arr l =>
      (match jget s "items" with
       | some items =>
         if truthy items = true then l.attach.all (fun x => conforms x.1 items)
         else true
       | none => true)
    | .obj vl =>
      (match jget s "properties" with
       | some props =>
         if typeHasObject (jget s "type") && truthy props then
           (vl.map (fun p => p.1)).all (fun k => (jsObjectKeys props).contains k) &&
           vl.attach.all (fun p => conforms p.1.2 ((jsIndex props p.1.1).getD .null))
         else true
       | none => true)
    | _ => true
termination_by sizeOf v
decreasing_by
  · have := List.sizeOf_lt_of_mem x.2
    simp
    omega
  · obtain ⟨⟨a, b⟩, hp⟩ := p
    have := List.sizeOf_lt_of_mem hp
    simp at this ⊢
    omega

theorem clean_guard_fail (d s : Json)
    (h : (truthy d && isObjLike d && truthy s && isObjLike s) = false) :
    cleanExtraProperties d s = d := by
  rw [cleanExtraProperties.eq_def]
  rw [if_pos (by simp [h])]

theorem clean_obj_none (dl : List (String × Json)) (s : Json)
    (h : (truthy s && isObjLike s) = true)
    (hpr : jget s "properties" = none) :
    cleanExtraProperties (.obj dl) s = .obj dl := by
  rw [cleanExtraProperties]
  rw [if_neg (by simp [truthy, isObjLike] at h ⊢; exact h)]
  simp only [hpr]

theorem clean_obj_skip (dl : List (String × Json)) (s props : Json)
    (h : (truthy s && isObjLike s) = true)
    (hpr : jget s "properties" = some props)
    (hc : (typeHasObject (jget s "type") && truthy props) = false) :
    cleanExtraProperties (.obj dl) s = .obj dl := by
  rw [cleanExtraProperties]
  rw [if_neg (by simp [truthy, isObjLike] at h ⊢; exact h)]
  simp only [hpr, hc]
  rfl

theorem clean_obj_go (dl : List (String × Json)) (s props : Json)
    (h : (truthy s && isObjLike s) = true)
    (hpr : jget s "properties" = some props)
    (hc : (typeHasObject (jget s "type") && truthy props) = true) :
    cleanExtraProperties (.obj dl) s =
      .obj ((jsObjectKeys props).attach.filterMap (fun k =>
        match assocGet dl k.1 with
        | some dv =>
          some (k.1, cleanExtraProperties dv ((jsIndex props k.1).getD .null))
        | none => none)) := by
  rw [cleanExtraProperties]
  rw [if_neg (by simp [truthy, isObjLike] at h ⊢; exact h)]
  simp only [hpr, hc]
  rw [if_pos trivial]
  congr 1
  generalize (jsObjectKeys props).attach = ks
  induction ks with
  | nil => rfl
  | cons a t ih =>
    simp only [List.filterMap_cons]
    cases hx : assocGet dl a.1 with
    | some dv => simp only [hx, ih]
    | none => simp only [hx, ih]

theorem conforms_guard_fail (v s : Json)
    (h : (truthy v && isObjLike v && truthy s && isObjLike s) = false) :
    conforms v s = true := by
  rw [conforms.eq_def]
  rw [if_pos (by simp [h])]


theorem clean_arr_none (l : List Json) (s : Json)
    (h : (truthy s && isObjLike s) = true)
    (hit : jget s "items" = none) :
    cleanExtraProperties (.arr l) s = .arr l := by
  rw [cleanExtraProperties]
  rw [if_neg (by simp [truthy, isObjLike] at h ⊢; exact h)]
  simp only [hit]

theorem clean_arr_skip (l : List Json) (s items : Json)
    (h : (truthy s && isObjLike s) = true)
    (hit : jget s "items" = some items)
    (htr : truthy items = false) :
    cleanExtraProperties (.arr l) s = .arr l := by
  rw [cleanExtraProperties]
  rw [if_neg (by simp [truthy, isObjLike] at h ⊢; exact h)]
  simp only [hit]
  rw [if_neg (by simp [htr])]

theorem clean_arr_items (l : List Json) (s items : Json)
    (h : (truthy s && isObjLike s) = true)
    (hit : jget s "items" = some items)
    (htr : truthy items = true) :
    cleanExtraProperties (.arr l) s =
      .arr (l.attach.map (fun x => cleanExtraProperties x.1 items)) := by
  rw [cleanExtraProperties]
  rw [if_neg (by simp [truthy, isObjLike] at h ⊢; exact h)]
  simp only [hit]
  rw [if_pos htr]

theorem conforms_arr_none (l : List Json) (s : Json)
    (h : (truthy s && isObjLike s) = true)
    (hit : jget s "items" = none) :
    conforms (.arr l) s = true := by
  rw [conforms]
  rw [if_neg (by simp [truthy, isObjLike] at h ⊢; exact h)]
  simp only [hit]

theorem conforms_arr_skip (l : List Json) (s items : Json)
    (h : (truthy s && isObjLike s) = true)
    (hit : jget s "items" = some items)
    (htr : truthy items = false) :
    conforms (.arr l) s = true := by
  rw [conforms]
  rw [if_neg (by simp [truthy, isObjLike] at h ⊢; exact h)]
  simp only [hit]
  rw [if_neg (by simp [htr])]

theorem conforms_arr_items (l : List Json) (s items : Json)
    (h : (truthy s && isObjLike s) = true)
    (hit : jget s "items" = some items)
    (htr : truthy items = true) :
    conforms (.arr l) s = l.attach.all (fun x => conforms x.1 items) := by
  rw [conforms]
  rw [if_neg (by simp [truthy, isObjLike] at h ⊢; exact h)]
  simp only [hit]
  rw [if_pos htr]

theorem conforms_obj_none (vl : List (String × Json)) (s : Json)
    (h : (truthy s && isObjLike s) = true)
    (hpr : jget s "properties" = none) :
    conforms (.obj vl) s = true := by
  rw [conforms]
  rw [if_neg (by simp [truthy, isObjLike] at h ⊢; exact h)]
  simp only [hpr]

theorem conforms_obj_skip (vl : List (String × Json)) (s props : Json)
    (h : (truthy s && isObjLike s) = true)
    (hpr : jget s "properties" = some props)
    (hc : (typeHasObject (jget s "type") && truthy props) = false) :
    conforms (.obj vl) s = true := by
  rw [conforms]
  rw [if_neg (by simp [truthy, isObjLike] at h ⊢; exact h)]
  simp only [hpr]
  rw [if_neg (by simp [hc])]

theorem conforms_obj_go (vl : List (String × Json)) (s props : Json)
    (h : (truthy s && isObjLike s) = true)
    (hpr : jget s "properties" = some props)
    (hc : (typeHasObject (jget s "type") && truthy props) = true) :
    conforms (.obj vl) s =
      ((vl.map (fun p => p.1)).all (fun k => (jsObjectKeys props).contains k) &&
       vl.attach.all (fun p => conforms p.1.2 ((jsIndex props p.1.1).getD .null))) := by
  rw [conforms]
  rw [if_neg (by simp [truthy, isObjLike] at h ⊢; exact h)]
  simp only [hpr]
  rw [if_pos hc]

/-- Main C5 lemma: the cleaning pass produces values that satisfy the
closure property against the very schema they were cleaned with. -/
theorem conforms_clean (d s : Json) : conforms (cleanExtraProperties d s) s = true := by
  rcases Bool.eq_false_or_eq_true (truthy d && isObjLike d && truthy s && isObjLike s) with hg | hgf
  · have h4 := hg
    simp only [Bool.and_eq_true] at h4
    obtain ⟨⟨⟨htd, hod⟩, hts⟩, hos⟩ := h4
    have hss : (truthy s && isObjLike s) = true := by simp [hts, hos]
    clear hg
    cases d with
    | null => simp [isObjLike] at hod
    | bool b => simp [isObjLike] at hod
    | num n => simp [isObjLike] at hod
    | str t => simp [isObjLike] at hod
    | arr l =>
      cases hit : jget s "items" with
      | none =>
        rw [clean_arr_none l s hss hit]
        exact conforms_arr_none l s hss hit
      | some items =>
        rcases Bool.eq_false_or_eq_true (truthy items) with htr | htr
        · rw [clean_arr_items l s items hss hit htr]
          rw [conforms_arr_items _ s items hss hit htr]
          rw [List.all_eq_true]
          rintro ⟨x, hx⟩ -
          show conforms x items = true
          simp only [List.mem_map, List.mem_attach, true_and] at hx
          obtain ⟨⟨y, hy⟩, hfy⟩ := hx
          simp only at hfy
          rw [← hfy]
          exact conforms_clean y items
        · rw [clean_arr_skip l s items hss hit htr]
          exact conforms_arr_skip l s items hss hit htr
    | obj dl =>
      cases hpr : jget s "properties" with
      | none =>
        rw [clean_obj_none dl s hss hpr]
        exact conforms_obj_none dl s hss hpr
      | some props =>
        rcases Bool.eq_false_or_eq_true (typeHasObject (jget s "type") && truthy props) with hc | hc
        swap
        · rw [clean_obj_skip dl s props hss hpr hc]
          exact conforms_obj_skip dl s props hss hpr hc
        · rw [clean_obj_go dl s props hss hpr hc]
          rw [conforms_obj_go _ s props hss hpr hc]
          rw [Bool.and_eq_true]
          constructor
          · rw [List.all_eq_true]
            intro k hk
            simp only [List.mem_map] at hk
            obtain ⟨p, hp, hpk⟩ := hk
            simp only [List.mem_filterMap, List.mem_attach, true_and] at hp
            obtain ⟨⟨k0, hk0⟩, hgm⟩ := hp
            cases hx : assocGet dl k0 with
            | none => simp [hx] at hgm
            | some dv =>
              simp only [hx] at hgm
              injection hgm with hgm2
              subst hgm2
              simp only at hpk
              rw [← hpk]
              exact List.elem_iff.mpr hk0
          · rw [List.all_eq_true]
            rintro ⟨p, hp⟩ -
            show conforms p.2 ((jsIndex props p.1).getD .null) = true
            simp only [List.mem_filterMap, List.mem_attach, true_and] at hp
            obtain ⟨⟨k0, hk0⟩, hgm⟩ := hp
            cases hx : assocGet dl k0 with
            | none => simp [hx] at hgm
            | some dv =>
              simp only [hx] at hgm
              injection hgm with hgm2
              subst hgm2
              exact conforms_clean dv ((jsIndex props k0).getD .null)
  · rw [clean_guard_fail d s hgf]
    exact conforms_guard_fail d s hgf
termination_by sizeOf d
decreasing_by
  · have := List.sizeOf_lt_of_mem hy
    simp
    omega
  · have := sizeOf_lt_of_assocGet hx
    simp
    omega

/-- C5: strict-mode closure.  First conjunct: for every generated value
`d` and every schema `s`, the strict post-pass `cleanExtraProperties d s`
returns a value whose every object node (reached recursively through
object properties and truthy array `items`) has a key set contained in
the keys of the schema node's declared `properties`, with each kept value
conforming to its property schema — checked only at nodes whose schema
`type` mentions `object` (union types such as `["object","null"]`
included via `typeHasObject`) and whose data value is an actual non-null
object, exactly as the recursion's truthiness/object guards demand.
Second conjunct: a non-object (or null/falsy) value passes through the
post-pass unchanged, for any schema. -/
theorem C5_clean_closure :
    (∀ d s, conforms (cleanExtraProperties d s) s = true) ∧
    (∀ d s, (truthy d && isObjLike d) = false → cleanExtraProperties d s = d) := by
  constructor
  · exact conforms_clean
  · intro d s h
    apply clean_guard_fail
    simp [h]

/-- C5 witness: a string passes through the post-pass unchanged, and a
cleaned concrete object conforms to its schema. -/
theorem C5_witness :
    ((truthy (Json.str "x") && isObjLike (Json.str "x")) = false ∧
      cleanExtraProperties (Json.str "x")
        (Json.obj [("type", Json.str "object")]) = Json.str "x") ∧
    conforms
      (cleanExtraProperties (Json.obj [("a", Json.num 1), ("b", Json.num 2)])
        (Json.obj [("type", Json.str "object"),
          ("properties", Json.obj [("a", Json.obj [])])]))
      (Json.obj [("type", Json.str "object"),
        ("properties", Json.obj [("a", Json.obj [])])]) = true :=
  ⟨⟨by decide,
    C5_clean_closure.2 (Json.str "x") (Json.obj [("type", Json.str "object")]) (by decide)⟩,
   C5_clean_closure.1 (Json.obj [("a", Json.num 1), ("b", Json.num 2)])
     (Json.obj [("type", Json.str "object"),
       ("properties", Json.obj [("a", Json.obj [])])])⟩

namespace GeneratorWorker

/-- The lookup produced exactly `additionalProperties: false`. -/
def isSomeFalse : Option Json → Bool
  | some (.bool false) => true
  | _ => false

/-- The lookup produced exactly `additionalProperties: true`. -/
def isSomeTrue : Option Json → Bool
  | some (.bool true) => true
  | _ => false

/-- The `additionalProperties` binding is absent (`undefined`) or the
literal `false` — the condition under which random mode rewrites it. -/
def apUnsetOrFalse : Option Json → Bool
  | none => true
  | some (.bool false) => true
  | _ => false

/-
The strict-mode policy as a predicate on the RESULT schema, traversing
exactly the nodes `enforceAdditionalProperties` visits (properties
children, truthy `items`, object-valued `additionalProperties`): at every
object node whose `type` mentions `object` and whose `properties` is
truthy, the `additionalProperties` binding is the literal `false`.
-/
mutual

def apStrictOK : Json → Bool
  | .obj l =>
    (!(typeHasObject (assocGet l "type") && truthyOpt (assocGet l "properties")) ||
      isSomeFalse (assocGet l "additionalProperties")) &&
    apStrictEntries l
  | _ => true

def apStrictEntries : List (String × Json) → Bool
  | [] => true
  | (k, v) :: t =>
    (if k = "properties" then (if truthy v then apStrictChildren v else true)
     else if k = "items" then (if truthy v then apStrictOK v else true)
     else if k = "additionalProperties" then
       (if truthy v && isObjLike v then apStrictOK v else true)
     else true) &&
    apStrictEntries t

def apStrictChildren : Json → Bool
  | .obj l => apStrictPairs l
  | .arr l => apStrictList l
  | _ => true

def apStrictPairs : List (String × Json) → Bool
  | [] => true
  | (_, v) :: t => apStrictOK v && apStrictPairs t

def apStrictList : List Json → Bool
  | [] => true
  | v :: t => apStrictOK v && apStrictList t

end

/-
The random-mode (fuzz) policy as a relation between the schema the
enforcement pass runs on and its result: at every object node whose
`type` mentions `object` and whose `properties` is truthy, if
`additionalProperties` was unset or `false` it is `true` in the result;
the correspondence descends through `properties` children (by key),
truthy `items`, and object-valued `additionalProperties`.
-/
mutual

def apFuzzRel : Json → Json → Prop
  | .obj l, .obj r =>
    ((typeHasObject (assocGet l "type") && truthyOpt (assocGet l "properties")) = true →
      apUnsetOrFalse (assocGet l "additionalProperties") = true →
      isSomeTrue (assocGet r "additionalProperties") = true) ∧
    (∀ p (hp : assocGet l "properties" = some p), truthy p = true →
      ∃ p2, assocGet r "properties" = some p2 ∧ apFuzzChildren p p2) ∧
    (∀ it (hitx : assocGet l "items" = some it), truthy it = true →
      ∃ it2, assocGet r "items" = some it2 ∧ apFuzzRel it it2) ∧
    (∀ a (hax : assocGet l "additionalProperties" = some a),
      (truthy a && isObjLike a) = true →
      ∃ a2, assocGet r "additionalProperties" = some a2 ∧ apFuzzRel a a2)
  | .obj _, _ => False
  | _, _ => True
termination_by j r => sizeOf j
decreasing_by
  all_goals
    first
    | (have h9 := sizeOf_lt_of_assocGet hp; simp; omega)
    | (have h9 := sizeOf_lt_of_assocGet hitx; simp; omega)
    | (have h9 := sizeOf_lt_of_assocGet hax; simp; omega)

def apFuzzChildren : Json → Json → Prop
  | .obj pl, .obj pr =>
    ∀ k v (hvx : assocGet pl k = some v),
      ∃ v2, assocGet pr k = some v2 ∧ apFuzzRel v v2
  | .obj _, _ => False
  | .arr el, .arr er =>
    el.length = er.length ∧
    ∀ (i : Nat) (h1 : i < el.length) (h2 : i < er.length),
      apFuzzRel (el.get ⟨i, h1⟩) (er.get ⟨i, h2⟩)
  | .arr _, _ => False
  | _, _ => True
termination_by j r => sizeOf j
decreasing_by
  all_goals
    first
    | (have h9 := sizeOf_lt_of_assocGet hvx; simp; omega)
    | (have h9 := List.sizeOf_lt_of_mem (List.get_mem el i h1); simp at h9 ⊢; omega)

end

/-- The intermediate schema of `prepareSchema(schema, randomMode)` right
after the deep clone and `$id` sweep — the value
`enforceAdditionalProperties` is then invoked on (non-objects skip the
whole preparation). -/
def removeIdStage (s : Json) : Json :=
  if truthy s && isObjLike s then removeIdRecursive s else s

end GeneratorWorker

namespace GeneratorWorker

/-- `apStrictEntries` distributes over append. -/
theorem apStrictEntries_append (a b : List (String × Json)) :
    apStrictEntries (a ++ b) = (apStrictEntries a && apStrictEntries b) := by
  induction a with
  | nil => simp [apStrictEntries]
  | cons p t ih =>
    obtain ⟨k, v⟩ := p
    simp only [List.cons_append, apStrictEntries, List.append_eq, ih, Bool.and_assoc]

/-- `enforcePairs` rewrites every binding in place. -/
theorem assocGet_enforcePairs (m : Bool) (pl : List (String × Json)) (k : String) :
    assocGet (enforcePairs m pl) k =
      (assocGet pl k).map (enforceAdditionalProperties m) := by
  induction pl with
  | nil => rfl
  | cons p t ih =>
    obtain ⟨k1, v1⟩ := p
    simp only [enforcePairs]
    by_cases h : k1 = k
    · subst h
      simp [assocGet]
    · simp only [assocGet, if_neg h]
      rw [ih]

/-- `enforceList` is a map of the enforcement over the elements. -/
theorem enforceList_eq_map (m : Bool) (l : List Json) :
    enforceList m l = l.map (enforceAdditionalProperties m) := by
  induction l with
  | nil => rfl
  | cons v t ih => simp only [enforceList, List.map_cons, ih]

mutual

/-- Strict-mode enforcement establishes the strict policy at every node
its traversal reaches. -/
theorem apStrictOK_enforce : ∀ j, apStrictOK (enforceAdditionalProperties false j) = true
  | .null => rfl
  | .bool _ => rfl
  | .num _ => rfl
  | .str _ => rfl
  | .arr _ => rfl
  | .obj l => by
    rw [enforce_obj_def]
    rcases Bool.eq_false_or_eq_true
      ((typeHasObject (assocGet l "type") && truthyOpt (assocGet l "properties")) &&
        (assocGet l "additionalProperties").isNone) with hcond | hcond
    · rw [if_pos hcond]
      simp only [apStrictOK]
      rw [Bool.and_eq_true]
      have hc2 := hcond
      rw [Bool.and_eq_true] at hc2
      obtain ⟨hd0, hnone⟩ := hc2
      have hnone2 : assocGet l "additionalProperties" = none :=
        Option.isNone_iff_eq_none.mp hnone
      constructor
      · have hE : assocGet (enforceEntries false
            (typeHasObject (assocGet l "type") && truthyOpt (assocGet l "properties")) l)
            "additionalProperties" = none := by
          have h2 := isNone_enforceEntries_ap false
            (typeHasObject (assocGet l "type") && truthyOpt (assocGet l "properties")) l
          rw [hnone2] at h2
          exact Option.isNone_iff_eq_none.mp h2
        rw [assocGet_append_right _ _ _ hE]
        simp [assocGet, isSomeFalse]
      · rw [apStrictEntries_append]
        rw [apStrictEntries_enforce _ l]
        simp [apStrictEntries, truthy, isObjLike]
    · rw [if_neg (by simp [hcond])]
      simp only [apStrictOK]
      rw [Bool.and_eq_true]
      refine ⟨?_, apStrictEntries_enforce _ l⟩
      have htype := assocGet_enforceEntries_other false
        (typeHasObject (assocGet l "type") && truthyOpt (assocGet l "properties")) l
        "type" (by decide) (by decide) (by decide)
      have hprops := truthyOpt_enforceEntries_props false
        (typeHasObject (assocGet l "type") && truthyOpt (assocGet l "properties")) l
      rw [htype, hprops]
      rcases Bool.eq_false_or_eq_true
        (typeHasObject (assocGet l "type") && truthyOpt (assocGet l "properties")) with hd0 | hd0
      · have hisno : (assocGet l "additionalProperties").isNone = false := by
          simp only [hd0, Bool.true_and] at hcond
          exact hcond
        obtain ⟨v, hv⟩ : ∃ v, assocGet l "additionalProperties" = some v := by
          cases hx : assocGet l "additionalProperties" with
          | none =>
            rw [hx] at hisno
            simp [Option.isNone] at hisno
          | some w => exact ⟨w, rfl⟩
        have h1 := assocGet_enforceEntries false
          (typeHasObject (assocGet l "type") && truthyOpt (assocGet l "properties")) l
          "additionalProperties"
        simp only [reduceIte, String.reduceEq] at h1
        rw [hv] at h1
        simp only [Option.map_some, Option.map_some', hd0, reduceIte, Bool.false_eq_true,
          if_false, if_true] at h1
        simp only [hd0]
        rw [h1]
        simp [isSomeFalse]
      · simp [hd0]

theorem apStrictEntries_enforce : ∀ (d : Bool) (l : List (String × Json)),
    apStrictEntries (enforceEntries false d l) = true
  | _, [] => rfl
  | d, (k, v) :: t => by
    simp only [enforceEntries, apStrictEntries]
    rw [Bool.and_eq_true]
    refine ⟨?_, apStrictEntries_enforce d t⟩
    by_cases hp : k = "properties"
    · simp only [if_pos hp]
      rcases Bool.eq_false_or_eq_true (truthy v) with htv | htv
      · rw [if_pos htv, if_pos ((truthy_enforceChildren false v).trans htv)]
        exact apStrictChildren_enforce v
      · simp [htv]
    · simp only [if_neg hp]
      by_cases hi : k = "items"
      · simp only [if_pos hi]
        rcases Bool.eq_false_or_eq_true (truthy v) with htv | htv
        · rw [if_pos htv, if_pos ((truthy_enforce false v).trans htv)]
          exact apStrictOK_enforce v
        · simp [htv]
      · simp only [if_neg hi]
        by_cases ha : k = "additionalProperties"
        · simp only [if_pos ha]
          rcases Bool.eq_false_or_eq_true d with hd | hd
          · simp [hd, truthy, isObjLike]
          · rcases Bool.eq_false_or_eq_true (truthy v && isObjLike v) with hto | hto
            · simp only [hd, Bool.false_eq_true, if_false, if_pos hto]
              have hcnd : (truthy (enforceAdditionalProperties false v) &&
                  isObjLike (enforceAdditionalProperties false v)) = true := by
                rw [truthy_enforce, isObjLike_enforce]
                exact hto
              rw [if_pos hcnd]
              exact apStrictOK_enforce v
            · simp [hd, hto]
        · simp only [if_neg ha]

theorem apStrictChildren_enforce : ∀ j, apStrictChildren (enforceChildren false j) = true
  | .null => rfl
  | .bool _ => rfl
  | .num _ => rfl
  | .str _ => rfl
  | .arr l => apStrictList_enforce l
  | .obj l => apStrictPairs_enforce l

theorem apStrictPairs_enforce : ∀ l, apStrictPairs (enforcePairs false l) = true
  | [] => rfl
  | (k, v) :: t => by
    simp only [enforcePairs, apStrictPairs]
    rw [apStrictOK_enforce v, apStrictPairs_enforce t]
    rfl

theorem apStrictList_enforce : ∀ l, apStrictList (enforceList false l) = true
  | [] => rfl
  | v :: t => by
    simp only [enforceList, apStrictList]
    rw [apStrictOK_enforce v, apStrictList_enforce t]
    rfl

end

end GeneratorWorker


namespace GeneratorWorker

/-- Random-mode enforcement realizes the fuzz policy: the result relates
to its input at every node (and children list) the traversal reaches. -/
theorem apFuzz_enforce (t : Json) :
    apFuzzRel t (enforceAdditionalProperties true t) ∧
    apFuzzChildren t (enforceChildren true t) := by
  cases t with
  | null =>
    constructor
    · rw [apFuzzRel.eq_def]
      simp [enforceAdditionalProperties]
    · rw [apFuzzChildren.eq_def]
      simp [enforceChildren]
  | bool b =>
    constructor
    · rw [apFuzzRel.eq_def]
      simp [enforceAdditionalProperties]
    · rw [apFuzzChildren.eq_def]
      simp [enforceChildren]
  | num n =>
    constructor
    · rw [apFuzzRel.eq_def]
      simp [enforceAdditionalProperties]
    · rw [apFuzzChildren.eq_def]
      simp [enforceChildren]
  | str s2 =>
    constructor
    · rw [apFuzzRel.eq_def]
      simp [enforceAdditionalProperties]
    · rw [apFuzzChildren.eq_def]
      simp [enforceChildren]
  | arr el =>
    constructor
    · rw [apFuzzRel.eq_def]
      simp [enforceAdditionalProperties]
    · simp only [enforceChildren]
      rw [apFuzzChildren.eq_def]
      show el.length = (enforceList true el).length ∧
        ∀ (i : Nat) (h1 : i < el.length) (h2 : i < (enforceList true el).length),
          apFuzzRel (el.get ⟨i, h1⟩) ((enforceList true el).get ⟨i, h2⟩)
      rw [enforceList_eq_map]
      constructor
      · simp
      · intro i h1 h2
        have hg : (List.map (enforceAdditionalProperties true) el).get ⟨i, h2⟩ =
            enforceAdditionalProperties true (el.get ⟨i, h1⟩) := by
          simp
        rw [hg]
        exact (apFuzz_enforce (el.get ⟨i, h1⟩)).1
  | obj l =>
    constructor
    · rw [enforce_obj_def]
      rcases Bool.eq_false_or_eq_true
        ((typeHasObject (assocGet l "type") && truthyOpt (assocGet l "properties")) &&
          (assocGet l "additionalProperties").isNone) with hcond | hcond
      · rw [if_pos hcond]
        simp only [apFuzzRel]
        have hc2 := hcond
        rw [Bool.and_eq_true] at hc2
        obtain ⟨hd0x, hnone⟩ := hc2
        have hnone2 : assocGet l "additionalProperties" = none :=
          Option.isNone_iff_eq_none.mp hnone
        have hE : assocGet (enforceEntries true
            (typeHasObject (assocGet l "type") && truthyOpt (assocGet l "properties")) l)
            "additionalProperties" = none := by
          have h2 := isNone_enforceEntries_ap true
            (typeHasObject (assocGet l "type") && truthyOpt (assocGet l "properties")) l
          rw [hnone2] at h2
          exact Option.isNone_iff_eq_none.mp h2
        refine ⟨?_, ?_, ?_, ?_⟩
        · intro _ _
          rw [assocGet_append_right _ _ _ hE]
          simp [assocGet, isSomeTrue]
        · intro p hp htp
          have h1 := assocGet_enforceEntries true
            (typeHasObject (assocGet l "type") && truthyOpt (assocGet l "properties")) l
            "properties"
          simp only [reduceIte, String.reduceEq] at h1
          have h2 : assocGet (enforceEntries true
              (typeHasObject (assocGet l "type") && truthyOpt (assocGet l "properties")) l)
              "properties" = some (enforceChildren true p) := by
            rw [h1, hp]
            simp [htp]
          exact ⟨enforceChildren true p, assocGet_append_left _ _ _ _ h2,
            (apFuzz_enforce p).2⟩
        · intro it hitx htit
          have h1 := assocGet_enforceEntries true
            (typeHasObject (assocGet l "type") && truthyOpt (assocGet l "properties")) l
            "items"
          simp only [reduceIte, String.reduceEq] at h1
          have h2 : assocGet (enforceEntries true
              (typeHasObject (assocGet l "type") && truthyOpt (assocGet l "properties")) l)
              "items" = some (enforceAdditionalProperties true it) := by
            rw [h1, hitx]
            simp [htit]
          exact ⟨enforceAdditionalProperties true it, assocGet_append_left _ _ _ _ h2,
            (apFuzz_enforce it).1⟩
        · intro a hax hoa
          rw [hnone2] at hax
          exact Option.noConfusion hax
      · rw [if_neg (by simp [hcond])]
        simp only [apFuzzRel]
        refine ⟨?_, ?_, ?_, ?_⟩
        · intro hd0 hap
          have hisno : (assocGet l "additionalProperties").isNone = false := by
            simp only [hd0, Bool.true_and] at hcond
            exact hcond
          obtain ⟨v, hv⟩ : ∃ v, assocGet l "additionalProperties" = some v := by
            cases hx : assocGet l "additionalProperties" with
            | none =>
              rw [hx] at hisno
              simp [Option.isNone] at hisno
            | some w => exact ⟨w, rfl⟩
          rw [hv] at hap
          have hvb : v = .bool false := by
            cases v with
            | bool b =>
              cases b with
              | false => rfl
              | true => simp [apUnsetOrFalse] at hap
            | null => simp [apUnsetOrFalse] at hap
            | num n => simp [apUnsetOrFalse] at hap
            | str s3 => simp [apUnsetOrFalse] at hap
            | arr l2 => simp [apUnsetOrFalse] at hap
            | obj l2 => simp [apUnsetOrFalse] at hap
          subst hvb
          have h1 := assocGet_enforceEntries true
            (typeHasObject (assocGet l "type") && truthyOpt (assocGet l "properties")) l
            "additionalProperties"
          simp only [reduceIte, String.reduceEq] at h1
          have h2 : assocGet (enforceEntries true
              (typeHasObject (assocGet l "type") && truthyOpt (assocGet l "properties")) l)
              "additionalProperties" = some (.bool true) := by
            rw [h1, hv]
            simp [hd0]
          rw [h2]
          rfl
        · intro p hp htp
          have h1 := assocGet_enforceEntries true
            (typeHasObject (assocGet l "type") && truthyOpt (assocGet l "properties")) l
            "properties"
          simp only [reduceIte, String.reduceEq] at h1
          have h2 : assocGet (enforceEntries true
              (typeHasObject (assocGet l "type") && truthyOpt (assocGet l "properties")) l)
              "properties" = some (enforceChildren true p) := by
            rw [h1, hp]
            simp [htp]
          exact ⟨enforceChildren true p, h2, (apFuzz_enforce p).2⟩
        · intro it hitx htit
          have h1 := assocGet_enforceEntries true
            (typeHasObject (assocGet l "type") && truthyOpt (assocGet l "properties")) l
            "items"
          simp only [reduceIte, String.reduceEq] at h1
          have h2 : assocGet (enforceEntries true
              (typeHasObject (assocGet l "type") && truthyOpt (assocGet l "properties")) l)
              "items" = some (enforceAdditionalProperties true it) := by
            rw [h1, hitx]
            simp [htit]
          exact ⟨enforceAdditionalProperties true it, h2, (apFuzz_enforce it).1⟩
        · intro a hax hoa
          have h1 := assocGet_enforceEntries true
            (typeHasObject (assocGet l "type") && truthyOpt (assocGet l "properties")) l
            "additionalProperties"
          simp only [reduceIte, String.reduceEq] at h1
          rcases Bool.eq_false_or_eq_true
            (typeHasObject (assocGet l "type") && truthyOpt (assocGet l "properties"))
            with hd | hd
          · cases a with
            | null => simp [truthy, isObjLike] at hoa
            | bool b => simp [truthy, isObjLike] at hoa
            | num n => simp [truthy, isObjLike] at hoa
            | str s3 => simp [truthy, isObjLike] at hoa
            | arr l2 =>
              have h2 : assocGet (enforceEntries true
                  (typeHasObject (assocGet l "type") && truthyOpt (assocGet l "properties")) l)
                  "additionalProperties" =
                  some (enforceAdditionalProperties true (.arr l2)) := by
                rw [h1, hax]
                simp [hd, hoa]
                intro hct
                rw [Bool.and_eq_true] at hoa
                exact absurd (hct hoa.1) (by simp [hoa.2])
              exact ⟨_, h2, (apFuzz_enforce (.arr l2)).1⟩
            | obj l2 =>
              have h2 : assocGet (enforceEntries true
                  (typeHasObject (assocGet l "type") && truthyOpt (assocGet l "properties")) l)
                  "additionalProperties" =
                  some (enforceAdditionalProperties true (.obj l2)) := by
                rw [h1, hax]
                simp [hd, hoa]
                intro hct
                rw [Bool.and_eq_true] at hoa
                exact absurd (hct hoa.1) (by simp [hoa.2])
              exact ⟨_, h2, (apFuzz_enforce (.obj l2)).1⟩
          · have h2 : assocGet (enforceEntries true
                (typeHasObject (assocGet l "type") && truthyOpt (assocGet l "properties")) l)
                "additionalProperties" = some (enforceAdditionalProperties true a) := by
              rw [h1, hax]
              simp [hd, hoa]
              intro hct
              rw [Bool.and_eq_true] at hoa
              exact absurd (hct hoa.1) (by simp [hoa.2])
            exact ⟨_, h2, (apFuzz_enforce a).1⟩
    · simp only [enforceChildren]
      rw [apFuzzChildren.eq_def]
      show ∀ k v (hvx : assocGet l k = some v),
        ∃ v2, assocGet (enforcePairs true l) k = some v2 ∧ apFuzzRel v v2
      intro k v hvx
      refine ⟨enforceAdditionalProperties true v, ?_, (apFuzz_enforce v).1⟩
      rw [assocGet_enforcePairs, hvx]
      rfl
termination_by sizeOf t
decreasing_by
  all_goals
    first
    | (have h9 := sizeOf_lt_of_assocGet hp; simp at h9 ⊢; omega)
    | (have h9 := sizeOf_lt_of_assocGet hitx; simp at h9 ⊢; omega)
    | (have h9 := sizeOf_lt_of_assocGet hax; simp at h9 ⊢; omega)
    | (have h9 := sizeOf_lt_of_assocGet hvx; simp at h9 ⊢; omega)
    | (have h9 := List.sizeOf_lt_of_mem (List.get_mem _ i h1); simp at h9 ⊢; omega)

end GeneratorWorker

namespace GeneratorWorker

/-- `prepareSchema(schema, true)` is the random-mode enforcement applied
to the `$id`-stripped stage. -/
theorem prepare_true_eq (s : Json) :
    prepareSchema s true = enforceAdditionalProperties true (removeIdStage s) := by
  rcases Bool.eq_false_or_eq_true (truthy s && isObjLike s) with hc | hc
  · rw [prepareSchema, removeIdStage, if_pos hc, if_pos hc]
  · rw [prepareSchema, removeIdStage, if_neg (by simp [hc]), if_neg (by simp [hc])]
    cases s with
    | obj l => simp [truthy, isObjLike] at hc
    | arr l => simp [truthy, isObjLike] at hc
    | null => rfl
    | bool b => rfl
    | num n => rfl
    | str t2 => rfl

end GeneratorWorker

/-- C1: the additional-properties policy of the worker's
`prepareSchema(schema, randomMode)` (generator.worker.js; the `$id`
sweep it shares with schemaService is `removeIdRecursive`).  Strict mode
(`randomMode = false`): the prepared schema satisfies `apStrictOK` — at
every object node whose `type` mentions `object` and whose `properties`
is truthy, `additionalProperties` is the literal `false`, checked deeply
through properties children, truthy `items`, and object-valued
`additionalProperties`.  Fuzz mode (`randomMode = true`): the prepared
schema relates to the `$id`-stripped input (`removeIdStage`, which
differs from the input only by deleted `$id` bindings) by `apFuzzRel` —
at every such object node where `additionalProperties` was unset or
`false`, the result binds it to `true`, with the correspondence
descending through `properties` children, truthy `items`, and
object-valued `additionalProperties`. -/
theorem C1_additionalProperties_policy :
    (∀ s, GeneratorWorker.apStrictOK (GeneratorWorker.prepareSchema s false) = true) ∧
    (∀ s, GeneratorWorker.apFuzzRel (GeneratorWorker.removeIdStage s)
      (GeneratorWorker.prepareSchema s true)) := by
  constructor
  · intro s
    rcases Bool.eq_false_or_eq_true (truthy s && isObjLike s) with hc | hc
    · rw [GeneratorWorker.prepareSchema, if_pos hc]
      exact GeneratorWorker.apStrictOK_enforce _
    · rw [GeneratorWorker.prepareSchema, if_neg (by simp [hc])]
      cases s with
      | obj l => simp [truthy, isObjLike] at hc
      | arr l => simp [truthy, isObjLike] at hc
      | null => rfl
      | bool b => rfl
      | num n => rfl
      | str t2 => rfl
  · intro s
    rw [GeneratorWorker.prepare_true_eq s]
    exact (GeneratorWorker.apFuzz_enforce (GeneratorWorker.removeIdStage s)).1
